import Mathlib

/-!
Voting application: poll store and HTTP service.

A shallow embedding of `src/database.js` (the SQLite-backed poll store) and of the
API routes of `src/server.js`, together with the add-option handler of
`src/public/script.js`.

Modelling conventions.

* The database is a value of type `Db` that every operation receives and returns.
  The `created_at` and `voted_at` columns are filled by column defaults and are
  read by no handler; they are left out of the rows.
* Request fields carry the JSON types of the documented API: strings, arrays
  of strings and numbers, each possibly absent.  For the fields of the create
  body `none` stands for `undefined` and for `null`, which the route does not
  tell apart.  For `optionIndex` the value `none` stands for `undefined` only:
  the vote route tests `=== undefined`, and a JSON `null` (which passes that
  test and fails later, at the insert) is not represented, like the other JSON
  types that are not numbers.  A JSON number is represented by its exact
  rational value.
* `new Date()` is the argument `now` (milliseconds since the epoch) and
  `new Date(s).getTime()` is the argument `parseDate s`, where `none` stands for
  an invalid date (`NaN`).
* `uuidv4()` is the argument `pollId`.
* JavaScript numbers that enter the percentage computation are IEEE-754 doubles;
  they are modelled exactly as `m * 2 ^ e` with round-to-nearest-even, the
  exponent range being unbounded (no overflow or underflow).
-/

namespace VotingApp

/-! ## JavaScript strings -/

/-- Code points removed by `String.prototype.trim` (ECMAScript WhiteSpace and
LineTerminator). -/
def isJsWhiteSpace (c : Char) : Bool :=
  c.toNat == 9 || c.toNat == 10 || c.toNat == 11 || c.toNat == 12 || c.toNat == 13 ||
  c.toNat == 32 || c.toNat == 160 || c.toNat == 5760 ||
  (8192 ≤ c.toNat && c.toNat ≤ 8202) ||
  c.toNat == 8232 || c.toNat == 8233 || c.toNat == 8239 || c.toNat == 8287 ||
  c.toNat == 12288 || c.toNat == 65279

/-- Strip leading and trailing white space from a list of characters. -/
def trimChars (cs : List Char) : List Char :=
  ((cs.dropWhile isJsWhiteSpace).reverse.dropWhile isJsWhiteSpace).reverse

/-- The method `String.prototype.trim`. -/
def jsTrim (s : String) : String := String.mk (trimChars s.data)

/-- JavaScript truthiness of a value that is a string, `undefined` or `null`. -/
def truthy (s : Option String) : Bool :=
  match s with
  | some t => t != ""
  | none => false

/-- The operator `a || b` on values that are strings, `undefined` or `null`. -/
def jsOr (a b : Option String) : Option String :=
  if truthy a then a else b

/-! ## `JSON.stringify` and `JSON.parse` on arrays of strings -/

/-- Lower-case hexadecimal digit. -/
def hexDigit (n : Nat) : Char :=
  if n < 10 then Char.ofNat (48 + n) else Char.ofNat (87 + n)

/-- The escape of one character inside a JSON string literal, as `JSON.stringify`
writes it (ECMAScript QuoteJSONString). -/
def quoteChar (c : Char) : List Char :=
  if c.toNat = 34 then [Char.ofNat 92, Char.ofNat 34]
  else if c.toNat = 92 then [Char.ofNat 92, Char.ofNat 92]
  else if c.toNat = 8 then [Char.ofNat 92, 'b']
  else if c.toNat = 12 then [Char.ofNat 92, 'f']
  else if c.toNat = 10 then [Char.ofNat 92, 'n']
  else if c.toNat = 13 then [Char.ofNat 92, 'r']
  else if c.toNat = 9 then [Char.ofNat 92, 't']
  else if c.toNat < 32 then
    [Char.ofNat 92, 'u', '0', '0', hexDigit (c.toNat / 16), hexDigit (c.toNat % 16)]
  else [c]

/-- A string as a JSON string literal. -/
def quoteJSONString (s : String) : List Char :=
  Char.ofNat 34 :: (s.data.flatMap quoteChar ++ [Char.ofNat 34])

/-- Every element after the first, each preceded by a comma. -/
def stringifyTail (xs : List String) : List Char :=
  xs.flatMap (fun x => Char.ofNat 44 :: quoteJSONString x)

/-- The characters of `JSON.stringify(xs)` for an array of strings. -/
def stringifyArray : List String → List Char
  | [] => [Char.ofNat 91, Char.ofNat 93]
  | x :: rest => Char.ofNat 91 :: (quoteJSONString x ++ (stringifyTail rest ++ [Char.ofNat 93]))

/-- The function `JSON.stringify` applied to an array of strings. -/
def jsonStringify (xs : List String) : String := String.mk (stringifyArray xs)

/-- Value of a hexadecimal digit of either case. -/
def hexVal (c : Char) : Option Nat :=
  if 48 ≤ c.toNat ∧ c.toNat ≤ 57 then some (c.toNat - 48)
  else if 97 ≤ c.toNat ∧ c.toNat ≤ 102 then some (c.toNat - 87)
  else if 65 ≤ c.toNat ∧ c.toNat ≤ 70 then some (c.toNat - 55)
  else none

/-- The character denoted by a single-character JSON escape. -/
def unescape (c : Char) : Option Char :=
  if c.toNat = 34 then some (Char.ofNat 34)
  else if c.toNat = 92 then some (Char.ofNat 92)
  else if c.toNat = 47 then some (Char.ofNat 47)
  else if c.toNat = 98 then some (Char.ofNat 8)
  else if c.toNat = 102 then some (Char.ofNat 12)
  else if c.toNat = 110 then some (Char.ofNat 10)
  else if c.toNat = 114 then some (Char.ofNat 13)
  else if c.toNat = 116 then some (Char.ofNat 9)
  else none

/-- Read a JSON string literal whose opening quote has been consumed; returns the
decoded characters and the rest of the input.  Escapes that denote surrogate
code units are not representable here and are refused. -/
def parseStringBody : List Char → List Char → Option (List Char × List Char)
  | [], _ => none
  | c :: rest, acc =>
    if c.toNat = 34 then some (acc.reverse, rest)
    else if c.toNat = 92 then
      match rest with
      | [] => none
      | e :: rest1 =>
        if e.toNat = 117 then
          match rest1 with
          | h1 :: h2 :: h3 :: h4 :: rest2 =>
            match hexVal h1, hexVal h2, hexVal h3, hexVal h4 with
            | some a, some b, some c, some d =>
              if 55296 ≤ ((a * 16 + b) * 16 + c) * 16 + d ∧
                  ((a * 16 + b) * 16 + c) * 16 + d ≤ 57343 then none
              else parseStringBody rest2 (Char.ofNat (((a * 16 + b) * 16 + c) * 16 + d) :: acc)
            | _, _, _, _ => none
          | _ => none
        else
          match unescape e with
          | some ch => parseStringBody rest1 (ch :: acc)
          | none => none
    else if c.toNat < 32 then none
    else parseStringBody rest (c :: acc)

/-- JSON insignificant white space. -/
def isJsonWhiteSpace (c : Char) : Bool :=
  c.toNat == 32 || c.toNat == 9 || c.toNat == 10 || c.toNat == 13

/-- Drop leading JSON white space. -/
def skipWs (cs : List Char) : List Char := cs.dropWhile isJsonWhiteSpace

/-- Read the remainder of an array after one element: either a comma and another
string, or the closing bracket.  Each round consumes input, so a fuel equal to
the length of the input is never exhausted. -/
def parseElements : Nat → List Char → List String → Option (List String)
  | 0, _, _ => none
  | fuel + 1, cs, acc =>
    match skipWs cs with
    | [] => none
    | c :: rest =>
      if c.toNat = 93 then (if skipWs rest = [] then some acc.reverse else none)
      else if c.toNat = 44 then
        match skipWs rest with
        | [] => none
        | q :: rest1 =>
          if q.toNat = 34 then
            match parseStringBody rest1 [] with
            | some (s, rest2) => parseElements fuel rest2 (String.mk s :: acc)
            | none => none
          else none
      else none

/-- Read a JSON text that denotes an array of strings. -/
def parseStringArray (cs : List Char) : Option (List String) :=
  match skipWs cs with
  | [] => none
  | c :: rest =>
    if c.toNat = 91 then
      match skipWs rest with
      | [] => none
      | q :: rest1 =>
        if q.toNat = 93 then (if skipWs rest1 = [] then some [] else none)
        else if q.toNat = 34 then
          match parseStringBody rest1 [] with
          | some (s, rest2) => parseElements cs.length rest2 [String.mk s]
          | none => none
        else none
    else none

/-- The function `JSON.parse` on the `options` column.  The result is `none` when
the text is not a JSON array of strings (the store never writes such a text). -/
def jsonParse (s : String) : Option (List String) := parseStringArray s.data

/-! ## IEEE-754 arithmetic of the percentage computation -/

/-- Position of the highest set bit, by halving. -/
def log2Fuel : Nat → Nat → Nat
  | 0, _ => 0
  | fuel + 1, n => if n < 2 then 0 else log2Fuel fuel (n / 2) + 1

/-- The floor of the binary logarithm (0 for 0). -/
def floorLog2 (n : Nat) : Nat := log2Fuel n n

/-- A finite non-negative double: the number `m * 2 ^ e`. -/
structure Dbl where
  m : Nat
  e : Int
deriving DecidableEq

/-- The rational value of a double. -/
def Dbl.toRat (x : Dbl) : ℚ := (x.m : ℚ) * (2 : ℚ) ^ x.e

/-- The quotient `a / b` rounded to 53 significant bits, ties to even.  The
quotient is first scaled by a power of two into the interval from `2 ^ 52` to
`2 ^ 53` and then rounded to an integer.  A zero divisor gives 0 here; the
caller divides only when the divisor is positive. -/
def roundRatio (a b : Nat) : Dbl :=
  if a = 0 ∨ b = 0 then ⟨0, 0⟩
  else
    let e0 : Int := (floorLog2 a : Int) - (floorLog2 b : Int) - 52
    let num0 : Nat := a * 2 ^ (-e0).toNat
    let den : Nat := b * 2 ^ e0.toNat
    let num : Nat := if num0 < 2 ^ 52 * den then 2 * num0 else num0
    let e : Int := if num0 < 2 ^ 52 * den then e0 - 1 else e0
    let q := num / den
    let r := num % den
    if 2 * r < den then ⟨q, e⟩
    else if den < 2 * r then ⟨q + 1, e⟩
    else if q % 2 = 0 then ⟨q, e⟩ else ⟨q + 1, e⟩

/-- An integer read from the database as a JavaScript number. -/
def Dbl.ofNat (n : Nat) : Dbl := roundRatio n 1

/-- JavaScript division of doubles. -/
def Dbl.div (x y : Dbl) : Dbl :=
  let r := roundRatio x.m y.m
  ⟨r.m, r.e + x.e - y.e⟩

/-- JavaScript multiplication of doubles. -/
def Dbl.mul (x y : Dbl) : Dbl :=
  let r := roundRatio (x.m * y.m) 1
  ⟨r.m, r.e + x.e + y.e⟩

/-- The digits of `x.toFixed(1)` as a number of tenths: the integer `n` for which
`n / 10 - x` is closest to zero, the larger one when there are two. -/
def toFixed1 (x : Dbl) : Nat :=
  if 0 ≤ x.e then 10 * x.m * 2 ^ x.e.toNat
  else (20 * x.m + 2 ^ (-x.e).toNat) / 2 ^ ((-x.e).toNat + 1)

/-- The double `(voteCount / totalVotes) * 100`. -/
def ratioTimes100 (voteCount totalVotes : Nat) : Dbl :=
  ((Dbl.ofNat voteCount).div (Dbl.ofNat totalVotes)).mul (Dbl.ofNat 100)

/-- The number that
`parseFloat(totalVotes > 0 ? ((voteCount / totalVotes) * 100).toFixed(1) : 0)`
contributes to the JSON response.  For a double below `1e21` the method `toFixed`
writes the digits of `toFixed1`, and `parseFloat` followed by JSON serialisation
gives back the same decimal as long as it has at most 15 significant digits; both
conditions hold whenever `voteCount ≤ totalVotes`, which is the only case the
results route produces (both counts are taken from the same table). -/
def percentage (voteCount totalVotes : Nat) : ℚ :=
  if totalVotes > 0 then (toFixed1 (ratioTimes100 voteCount totalVotes) : ℚ) / 10
  else 0

/-! ## The poll store (`database.js`) -/

/-- A row of the `polls` table; `options` holds JSON text. -/
structure PollRow where
  id : String
  title : String
  description : String
  options : String
  deadline : Option String
deriving DecidableEq

/-- A row of the `votes` table.  `option_index` holds the number that was bound to
the insert statement and `voter_ip` is `none` for SQL `NULL`. -/
structure VoteRow where
  id : Nat
  poll_id : String
  option_index : ℚ
  voter_ip : Option String
deriving DecidableEq

/-- The database: both tables in insertion order, and the largest row id that the
`AUTOINCREMENT` key of `votes` has handed out. -/
structure Db where
  polls : List PollRow
  votes : List VoteRow
  voteSeq : Nat
deriving DecidableEq

/-- The database right after `initDatabase` on a fresh file. -/
def emptyDb : Db := ⟨[], [], 0⟩

/-- A poll object as the store hands it to the service. -/
structure Poll where
  id : String
  title : String
  description : String
  options : List String
  deadline : Option String
deriving DecidableEq

/-- How a promise returned by the store ends: resolved, rejected with an error
message, or never settled because the database callback threw. -/
inductive Outcome (α : Type) where
  | resolved (value : α)
  | rejected (message : String)
  | thrown
deriving DecidableEq

/-- The store function `createPoll`: insert one row; the primary key on `id` makes
the insert fail when a row with that id exists. -/
def createPoll (db : Db) (pollData : Poll) : Outcome (Db × Poll) :=
  if db.polls.any (fun r => r.id == pollData.id) then
    .rejected "SQLITE_CONSTRAINT: UNIQUE constraint failed: polls.id"
  else
    .resolved
      (⟨db.polls ++ [⟨pollData.id, pollData.title, pollData.description,
          jsonStringify pollData.options, pollData.deadline⟩], db.votes, db.voteSeq⟩,
        pollData)

/-- The store function `getPoll`: select the row by id and decode its options. -/
def getPoll (db : Db) (pollId : String) : Outcome (Option Poll) :=
  match db.polls.find? (fun r => r.id == pollId) with
  | none => .resolved none
  | some row =>
    match jsonParse row.options with
    | some options => .resolved (some ⟨row.id, row.title, row.description, options, row.deadline⟩)
    | none => .thrown

/-- SQL equality of two nullable text values in a `WHERE` clause: a comparison
with `NULL` is never true. -/
def sqlEq (a b : Option String) : Bool :=
  match a, b with
  | some x, some y => x == y
  | _, _ => false

/-- The store function `submitVote`: look for a vote of this address in this poll,
reject if there is one, insert otherwise. -/
def submitVote (db : Db) (pollId : String) (optionIndex : ℚ) (voterIp : Option String) :
    Outcome (Db × Nat) :=
  if db.votes.any (fun v => v.poll_id == pollId && sqlEq v.voter_ip voterIp) then
    .rejected "You have already voted in this poll"
  else
    .resolved
      (⟨db.polls, db.votes ++ [⟨db.voteSeq + 1, pollId, optionIndex, voterIp⟩], db.voteSeq + 1⟩,
        db.voteSeq + 1)

/-- The votes of one poll. -/
def votesOf (db : Db) (pollId : String) : List VoteRow :=
  db.votes.filter (fun v => v.poll_id == pollId)

/-- The store function `getPollResults`: one entry per distinct `option_index`
among the votes of the poll, with the number of those votes. -/
def getPollResults (db : Db) (pollId : String) : List (ℚ × Nat) :=
  (((votesOf db pollId).map (fun v => v.option_index)).dedup).map
    (fun k => (k, (votesOf db pollId).countP (fun v => v.option_index == k)))

/-- The store function `getTotalVotes`. -/
def getTotalVotes (db : Db) (pollId : String) : Nat :=
  (votesOf db pollId).length

/-! ## The HTTP service (`server.js`) -/

/-- The parts of an Express request that the routes read. -/
structure Request (β : Type) where
  protocol : String
  host : String
  xForwardedFor : Option String
  connectionRemoteAddress : Option String
  socketRemoteAddress : Option String
  connectionSocket : Option (Option String)
  id : String
  body : β

/-- What a route does with the response: `res.json(body)`,
`res.status(status).json(...)` with an error message, or nothing at all because an
exception escaped the route. -/
inductive Response (α : Type) where
  | ok (body : α)
  | error (status : Nat) (message : String)
  | uncaught
deriving DecidableEq

/-- The helper `getClientIP`. -/
def getClientIP {β : Type} (req : Request β) : Option String :=
  jsOr req.xForwardedFor
    (jsOr req.connectionRemoteAddress
      (jsOr req.socketRemoteAddress
        (match req.connectionSocket with
          | some remoteAddress => remoteAddress
          | none => none)))

/-- The comparison `new Date(deadline) <= new Date()`; an invalid date compares
false. -/
def dateNotAfter (parseDate : String → Option Int) (deadline : String) (now : Int) : Bool :=
  match parseDate deadline with
  | some t => decide (t ≤ now)
  | none => false

/-- The condition `deadline && new Date(deadline) <= new Date()`. -/
def deadlinePassed (parseDate : String → Option Int) (deadline : Option String) (now : Int) :
    Bool :=
  match deadline with
  | some d => d != "" && dateNotAfter parseDate d now
  | none => false

/-- The value `poll.deadline && new Date(poll.deadline) <= new Date()` stored in
`isExpired`: a boolean when the deadline is a non-empty string, and the falsy
deadline itself (here `none`) otherwise. -/
def isExpired (parseDate : String → Option Int) (deadline : Option String) (now : Int) :
    Option Bool :=
  match deadline with
  | some d => if d != "" then some (dateNotAfter parseDate d now) else none
  | none => none

/-- Body of `POST /api/polls`. -/
structure CreateBody where
  title : Option String
  description : Option String
  options : Option (List String)
  deadline : Option String

/-- Success body of `POST /api/polls`. -/
structure CreateResponse where
  poll : Poll
  pollUrl : String
  resultsUrl : String
deriving DecidableEq

/-- The options kept by the route: those whose trimmed text is not empty. -/
def validOptions (options : List String) : List String :=
  options.filter (fun option => (jsTrim option).length > 0)

/-- Route `POST /api/polls`. -/
def apiCreatePoll (parseDate : String → Option Int) (db : Db) (req : Request CreateBody)
    (pollId : String) (now : Int) : Db × Response CreateResponse :=
  match req.body.options with
  | none => (db, .error 400 "Title and at least 2 options are required")
  | some options =>
    if !truthy req.body.title || options.length < 2 then
      (db, .error 400 "Title and at least 2 options are required")
    else if (validOptions options).length < 2 then
      (db, .error 400 "At least 2 non-empty options are required")
    else if deadlinePassed parseDate req.body.deadline now then
      (db, .error 400 "Deadline must be in the future")
    else
      match createPoll db
          ⟨pollId, jsTrim (req.body.title.getD ""),
            if truthy req.body.description then jsTrim (req.body.description.getD "") else "",
            validOptions options,
            jsOr req.body.deadline none⟩ with
      | .resolved (db1, poll) =>
        (db1, .ok ⟨poll, req.protocol ++ "://" ++ req.host ++ "/poll/" ++ pollId,
          req.protocol ++ "://" ++ req.host ++ "/results/" ++ pollId⟩)
      | _ => (db, .error 500 "Failed to create poll")

/-- Success body of `GET /api/polls/:id`: the poll and its `isExpired` value. -/
structure PollResponse where
  poll : Poll
  isExpired : Option Bool
deriving DecidableEq

/-- Route `GET /api/polls/:id`. -/
def apiGetPoll (parseDate : String → Option Int) (db : Db) (req : Request Unit) (now : Int) :
    Response PollResponse :=
  match getPoll db req.id with
  | .resolved none => .error 404 "Poll not found"
  | .resolved (some poll) => .ok ⟨poll, isExpired parseDate poll.deadline now⟩
  | .rejected _ => .error 500 "Failed to fetch poll"
  | .thrown => .uncaught

/-- Body of `POST /api/polls/:id/vote`; `none` is an absent `optionIndex`. -/
structure VoteBody where
  optionIndex : Option ℚ

/-- Success body of `POST /api/polls/:id/vote`. -/
structure VoteResponse where
  message : String
  resultsUrl : String
deriving DecidableEq

/-- Route `POST /api/polls/:id/vote`. -/
def apiVote (parseDate : String → Option Int) (db : Db) (req : Request VoteBody) (now : Int) :
    Db × Response VoteResponse :=
  match req.body.optionIndex with
  | none => (db, .error 400 "Valid option selection is required")
  | some optionIndex =>
    if optionIndex < 0 then (db, .error 400 "Valid option selection is required")
    else
      match getPoll db req.id with
      | .thrown => (db, .uncaught)
      | .rejected _ => (db, .error 500 "Failed to submit vote")
      | .resolved none => (db, .error 404 "Poll not found")
      | .resolved (some poll) =>
        if deadlinePassed parseDate poll.deadline now then
          (db, .error 400 "This poll has expired")
        else if optionIndex ≥ (poll.options.length : ℚ) then
          (db, .error 400 "Invalid option selected")
        else
          match submitVote db req.id optionIndex (getClientIP req) with
          | .resolved (db1, _) =>
            (db1, .ok ⟨"Vote submitted successfully",
              req.protocol ++ "://" ++ req.host ++ "/results/" ++ req.id⟩)
          | .rejected message =>
            if message = "You have already voted in this poll" then (db, .error 409 message)
            else (db, .error 500 "Failed to submit vote")
          | .thrown => (db, .uncaught)

/-- One entry of the results list. -/
structure ResultEntry where
  option : String
  votes : Nat
  percentage : ℚ
deriving DecidableEq

/-- Success body of `GET /api/polls/:id/results`. -/
structure ResultsResponse where
  poll : Poll
  isExpired : Option Bool
  results : List ResultEntry
  totalVotes : Nat
  pollUrl : String
deriving DecidableEq

/-- The expression `results[index] || 0` on the object built by `getPollResults`. -/
def voteCountAt (results : List (ℚ × Nat)) (index : Nat) : Nat :=
  (results.lookup (index : ℚ)).getD 0

/-- The list `formattedResults`. -/
def formattedResults (options : List String) (results : List (ℚ × Nat)) (totalVotes : Nat) :
    List ResultEntry :=
  options.mapIdx (fun index option =>
    ⟨option, voteCountAt results index, percentage (voteCountAt results index) totalVotes⟩)

/-- Route `GET /api/polls/:id/results`. -/
def apiResults (parseDate : String → Option Int) (db : Db) (req : Request Unit) (now : Int) :
    Response ResultsResponse :=
  match getPoll db req.id with
  | .thrown => .uncaught
  | .rejected _ => .error 500 "Failed to fetch results"
  | .resolved none => .error 404 "Poll not found"
  | .resolved (some poll) =>
    .ok ⟨poll, isExpired parseDate poll.deadline now,
      formattedResults poll.options (getPollResults db req.id) (getTotalVotes db req.id),
      getTotalVotes db req.id,
      req.protocol ++ "://" ++ req.host ++ "/poll/" ++ req.id⟩

/-! ## Sequences of calls -/

/-- A state-changing API call together with the values it draws from its
environment (the fresh identifier and the clock). -/
inductive Call where
  | createPoll (req : Request CreateBody) (pollId : String) (now : Int)
  | submitVote (req : Request VoteBody) (now : Int)

/-- The database after one call. -/
def step (parseDate : String → Option Int) (db : Db) : Call → Db
  | .createPoll req pollId now => (apiCreatePoll parseDate db req pollId now).1
  | .submitVote req now => (apiVote parseDate db req now).1

/-- The database after a sequence of calls, one after the other. -/
def run (parseDate : String → Option Int) (db : Db) (calls : List Call) : Db :=
  calls.foldl (step parseDate) db

/-- No two votes of the same poll carry the same non-null address. -/
def UniqueAddresses (votes : List VoteRow) : Prop :=
  votes.Pairwise (fun v w => v.poll_id = w.poll_id → v.voter_ip = w.voter_ip → v.voter_ip = none)

/-- The sum of the `votes` fields of a results list. -/
def sumVotes (results : List ResultEntry) : Nat :=
  (results.map (fun entry => entry.votes)).sum

/-- Every recorded vote belongs to a stored poll whose options decode, and its
index is not negative and below the number of options of that poll. -/
def VotesInRange (db : Db) : Prop :=
  ∀ v ∈ db.votes, ∃ poll, getPoll db v.poll_id = .resolved (some poll) ∧
    0 ≤ v.option_index ∧ v.option_index < (poll.options.length : ℚ)

/-! ## The poll form (`public/script.js`) -/

/-- The click handler of the add-option button, on the number of option inputs
in the form: at 10 inputs it shows an error and adds nothing. -/
def addOptionClick (optionCount : Nat) : Nat × Option String :=
  if optionCount ≥ 10 then (optionCount, some "Maximum 10 options allowed")
  else (optionCount + 1, none)

/-! ## The normalisation of options as the specification words it -/

/-- Trim every option, drop the empty ones, then remove duplicates by exact string
match keeping the first occurrence.  This follows the specification text, not
the source. -/
def specNormalizeOptions (options : List String) : List String :=
  ((options.map jsTrim).filter (fun o => o != "")).eraseDups

/-! ## The percentage as the specification words it -/

/-- The value `votes / total * 100` rounded to one decimal place, a value halfway
between two tenths going up, and 0 when the total is 0.  This follows the
specification text, in exact arithmetic, not the source. -/
def specPercentage (votes total : Nat) : ℚ :=
  if total > 0 then (((2000 * votes + total) / (2 * total) : Nat) : ℚ) / 10 else 0

/-! ## Sample data -/

/-- A date parser for examples: a string of decimal digits is that many
milliseconds since the epoch, anything else is an invalid date. -/
def sampleParseDate (s : String) : Option Int :=
  if s.data.all Char.isDigit && s != "" then
    some (Int.ofNat (s.data.foldl (fun n c => 10 * n + (c.toNat - 48)) 0))
  else none

/-- A create-poll request arriving from address 10.0.0.1. -/
def createRequest (title : Option String) (options : Option (List String))
    (deadline : Option String) : Request CreateBody :=
  ⟨"http", "localhost:3000", none, some "10.0.0.1", some "10.0.0.1", none, "",
    ⟨title, none, options, deadline⟩⟩

/-- A vote request on poll `pollId` whose only address information is
`remoteAddress`. -/
def voteRequest (pollId : String) (remoteAddress : Option String) (optionIndex : Option ℚ) :
    Request VoteBody :=
  ⟨"http", "localhost:3000", none, remoteAddress, remoteAddress, none, pollId, ⟨optionIndex⟩⟩

/-- A read request for poll `pollId`. -/
def readRequest (pollId : String) : Request Unit :=
  ⟨"http", "localhost:3000", none, some "10.0.0.3", some "10.0.0.3", none, pollId, ()⟩

/-- The poll of the lunch scenario. -/
def lunchPoll : Poll := ⟨"poll-1", "Lunch", "", ["Pizza", "Sushi"], none⟩

/-- The database holding the lunch poll and no vote. -/
def lunchDb : Db :=
  ⟨[⟨"poll-1", "Lunch", "", jsonStringify ["Pizza", "Sushi"], none⟩], [], 0⟩

/-- The lunch poll after address 10.0.0.1 voted for option 0. -/
def lunchDb1 : Db :=
  ⟨[⟨"poll-1", "Lunch", "", jsonStringify ["Pizza", "Sushi"], none⟩],
    [⟨1, "poll-1", 0, some "10.0.0.1"⟩], 1⟩

/-- The lunch poll after 10.0.0.1 voted for option 0 and 10.0.0.2 for option 1. -/
def lunchDb2 : Db :=
  ⟨[⟨"poll-1", "Lunch", "", jsonStringify ["Pizza", "Sushi"], none⟩],
    [⟨1, "poll-1", 0, some "10.0.0.1"⟩, ⟨2, "poll-1", 1, some "10.0.0.2"⟩], 2⟩

/-- The lunch poll after address 10.0.0.1 voted with the option index 0.5. -/
def halfVoteDb : Db :=
  ⟨[⟨"poll-1", "Lunch", "", jsonStringify ["Pizza", "Sushi"], none⟩],
    [⟨1, "poll-1", 1 / 2, some "10.0.0.1"⟩], 1⟩

/-- The colours poll, stored next to the lunch poll in `twoPollDb`. -/
def coloursPoll : Poll := ⟨"poll-2", "Colours", "", ["Red", "Blue", "Green"], none⟩

/-- Two polls with interleaved votes: two votes on the lunch poll (one for each
option) and three on the colours poll (two for option 0, one for option 2). -/
def twoPollDb : Db :=
  ⟨[⟨"poll-1", "Lunch", "", jsonStringify ["Pizza", "Sushi"], none⟩,
      ⟨"poll-2", "Colours", "", jsonStringify ["Red", "Blue", "Green"], none⟩],
    [⟨1, "poll-1", 0, some "10.0.0.1"⟩, ⟨2, "poll-2", 0, some "10.0.0.1"⟩,
      ⟨3, "poll-2", 0, some "10.0.0.2"⟩, ⟨4, "poll-1", 1, some "10.0.0.2"⟩,
      ⟨5, "poll-2", 2, some "10.0.0.3"⟩], 5⟩

/-- The address of the `k`-th voter of the tie scenario. -/
def tieVoter (k : Nat) : String := String.mk ('v' :: List.replicate k 'i')

/-- The calls of the tie scenario: one poll with three options, then 80 votes
from 80 addresses, 41 for option 0, 1 for option 1 and 38 for option 2. -/
def tieCalls : List Call :=
  .createPoll (createRequest (some "Tie") (some ["A", "B", "C"]) none) "poll-1" 0 ::
    (List.range 80).map (fun k =>
      .submitVote (voteRequest "poll-1" (some (tieVoter k))
        (some (if k < 41 then 0 else if k < 42 then 1 else 2))) 1)

/-! ## The JSON codec round trip -/

theorem hexVal_hexDigit (k : Nat) (hk : k < 16) : hexVal (hexDigit k) = some k := by
  interval_cases k <;> decide

theorem parseStringBody_cons (c : Char) (rest acc : List Char) :
    parseStringBody (c :: rest) acc =
      if c.toNat = 34 then some (acc.reverse, rest)
      else if c.toNat = 92 then
        match rest with
        | [] => none
        | e :: rest1 =>
          if e.toNat = 117 then
            match rest1 with
            | h1 :: h2 :: h3 :: h4 :: rest2 =>
              match hexVal h1, hexVal h2, hexVal h3, hexVal h4 with
              | some a, some b, some c, some d =>
                if 55296 ≤ ((a * 16 + b) * 16 + c) * 16 + d ∧
                    ((a * 16 + b) * 16 + c) * 16 + d ≤ 57343 then none
                else parseStringBody rest2 (Char.ofNat (((a * 16 + b) * 16 + c) * 16 + d) :: acc)
              | _, _, _, _ => none
            | _ => none
          else
            match unescape e with
            | some ch => parseStringBody rest1 (ch :: acc)
            | none => none
      else if c.toNat < 32 then none
      else parseStringBody rest (c :: acc) := by
  rw [parseStringBody.eq_def]

theorem parseStringBody_quoteChar (c : Char) (tail acc : List Char) :
    parseStringBody (quoteChar c ++ tail) acc = parseStringBody tail (c :: acc) := by
  by_cases h : c.toNat < 93
  · have hc : c = Char.ofNat c.toNat := (Char.ofNat_toNat c).symm
    generalize c.toNat = n at h hc
    subst hc
    interval_cases n <;>
      first
      | rfl
      | (simp +decide [quoteChar, hexDigit, parseStringBody_cons, unescape])
  · have e : quoteChar c = [c] := by
      unfold quoteChar
      rw [if_neg (by omega), if_neg (by omega), if_neg (by omega), if_neg (by omega),
        if_neg (by omega), if_neg (by omega), if_neg (by omega), if_neg (by omega)]
    rw [e, List.singleton_append, parseStringBody_cons]
    rw [if_neg (by omega), if_neg (by omega), if_neg (by omega)]

theorem parseStringBody_quote (s : List Char) :
    ∀ (rest acc : List Char),
      parseStringBody (s.flatMap quoteChar ++ Char.ofNat 34 :: rest) acc
        = some (acc.reverse ++ s, rest) := by
  induction s with
  | nil => intro rest acc; rw [List.flatMap_nil, List.nil_append, parseStringBody_cons]; simp
  | cons c s ih =>
    intro rest acc
    rw [List.flatMap_cons, List.append_assoc, parseStringBody_quoteChar, ih]
    simp


theorem skipWs_cons (c : Char) (rest : List Char) (h : isJsonWhiteSpace c = false) :
    skipWs (c :: rest) = c :: rest := by
  simp [skipWs, List.dropWhile_cons, h]

theorem parseElements_tail (xs : List String) :
    ∀ (fuel : Nat) (acc : List String), xs.length < fuel →
      parseElements fuel (stringifyTail xs ++ [Char.ofNat 93]) acc = some (acc.reverse ++ xs) := by
  induction xs with
  | nil =>
    intro fuel acc hf
    obtain ⟨k, rfl⟩ : ∃ k, fuel = k + 1 := ⟨fuel - 1, by simp at hf; omega⟩
    simp only [stringifyTail, List.flatMap_nil, List.nil_append]
    rw [parseElements, skipWs_cons _ _ (by decide)]
    simp only
    rw [if_pos (by decide)]
    simp [skipWs]
  | cons x xs ih =>
    intro fuel acc hf
    obtain ⟨k, rfl⟩ : ∃ k, fuel = k + 1 := ⟨fuel - 1, by simp at hf; omega⟩
    have hk : xs.length < k := by simp at hf; omega
    have e : stringifyTail (x :: xs) ++ [Char.ofNat 93]
        = Char.ofNat 44 :: Char.ofNat 34 ::
            (x.data.flatMap quoteChar ++ Char.ofNat 34 :: (stringifyTail xs ++ [Char.ofNat 93])) := by
      simp [stringifyTail, quoteJSONString]
    rw [e, parseElements, skipWs_cons _ _ (by decide)]
    simp only
    rw [if_neg (by decide), if_pos (by decide), skipWs_cons _ _ (by decide)]
    simp only
    rw [if_pos (by decide), parseStringBody_quote]
    simp only
    rw [ih k _ hk]
    simp

theorem stringifyArray_length (xs : List String) : xs.length < (stringifyArray xs).length := by
  have h : ∀ ys : List String, ys.length ≤ (stringifyTail ys).length := by
    intro ys
    induction ys with
    | nil => simp [stringifyTail]
    | cons y ys ih =>
      simp only [stringifyTail, List.flatMap_cons, List.length_append, List.length_cons] at ih ⊢
      omega
  cases xs with
  | nil => simp [stringifyArray]
  | cons x xs =>
    have := h xs
    simp only [stringifyArray, List.length_cons, List.length_append]
    omega

theorem jsonParse_jsonStringify (xs : List String) : jsonParse (jsonStringify xs) = some xs := by
  unfold jsonParse jsonStringify
  show parseStringArray (stringifyArray xs) = some xs
  cases xs with
  | nil =>
    decide
  | cons x xs =>
    have hl := stringifyArray_length (x :: xs)
    have e : stringifyArray (x :: xs)
        = Char.ofNat 91 :: Char.ofNat 34 ::
            (x.data.flatMap quoteChar ++ Char.ofNat 34 :: (stringifyTail xs ++ [Char.ofNat 93])) := by
      simp [stringifyArray, quoteJSONString]
    rw [e] at hl ⊢
    rw [parseStringArray, skipWs_cons _ _ (by decide)]
    simp only
    rw [if_pos (by decide), skipWs_cons _ _ (by decide)]
    simp only
    rw [if_neg (by decide), if_pos (by decide), parseStringBody_quote]
    simp only
    rw [parseElements_tail xs _ _ (by simp at hl ⊢; omega)]
    simp

/-! ## Facts about the store -/

theorem sqlEq_eq_true {a b : Option String} (h : sqlEq a b = true) : a = b := by
  cases a <;> cases b <;> simp_all [sqlEq]

theorem sqlEq_some (x : String) : sqlEq (some x) (some x) = true := by
  simp [sqlEq]

theorem submitVote_fresh (db : Db) (pollId : String) (optionIndex : ℚ) (voterIp : Option String)
    (h : ∀ v ∈ db.votes, v.poll_id = pollId → v.voter_ip ≠ voterIp) :
    submitVote db pollId optionIndex voterIp =
      .resolved (⟨db.polls, db.votes ++ [⟨db.voteSeq + 1, pollId, optionIndex, voterIp⟩],
        db.voteSeq + 1⟩, db.voteSeq + 1) := by
  unfold submitVote
  rw [if_neg]
  intro hany
  rw [List.any_eq_true] at hany
  obtain ⟨v, hv, hp⟩ := hany
  rw [Bool.and_eq_true] at hp
  exact h v hv (by simpa using hp.1) (sqlEq_eq_true hp.2)

theorem submitVote_duplicate (db : Db) (pollId : String) (optionIndex : ℚ) (A : String)
    (h : ∃ v ∈ db.votes, v.poll_id = pollId ∧ v.voter_ip = some A) :
    submitVote db pollId optionIndex (some A) = .rejected "You have already voted in this poll" := by
  unfold submitVote
  rw [if_pos]
  obtain ⟨v, hv, hp, ha⟩ := h
  rw [List.any_eq_true]
  exact ⟨v, hv, by simp [hp, ha, sqlEq]⟩

/-! ## The vote route -/

theorem apiVote_of_open (parseDate : String → Option Int) (db : Db) (req : Request VoteBody)
    (now : Int) (poll : Poll) (q : ℚ)
    (hidx : req.body.optionIndex = some q) (hq : 0 ≤ q)
    (hpoll : getPoll db req.id = .resolved (some poll))
    (hopen : deadlinePassed parseDate poll.deadline now = false) :
    apiVote parseDate db req now =
      if q ≥ (poll.options.length : ℚ) then (db, .error 400 "Invalid option selected")
      else
        match submitVote db req.id q (getClientIP req) with
        | .resolved (db1, _) =>
          (db1, .ok ⟨"Vote submitted successfully",
            req.protocol ++ "://" ++ req.host ++ "/results/" ++ req.id⟩)
        | .rejected message =>
          if message = "You have already voted in this poll" then (db, .error 409 message)
          else (db, .error 500 "Failed to submit vote")
        | .thrown => (db, .uncaught) := by
  unfold apiVote
  simp only [hidx, hpoll, hopen]
  rw [if_neg (not_lt.mpr hq)]
  simp

/-- C1: in an existing poll that has not expired and for a valid option index, a
vote request whose address `A` already has a recorded vote in the poll is answered
with status 409 and the duplicate-vote message and leaves the database as it was,
while a request whose address has no recorded vote in the poll succeeds and
appends exactly one vote row (this poll, this index, this address). -/
theorem vote_duplicate_rejected_other_accepted
    (parseDate : String → Option Int) (db : Db) (req : Request VoteBody) (now : Int)
    (poll : Poll) (i : Nat)
    (hpoll : getPoll db req.id = .resolved (some poll))
    (hopen : deadlinePassed parseDate poll.deadline now = false)
    (hi : i < poll.options.length)
    (hidx : req.body.optionIndex = some (i : ℚ)) :
    (∀ A : String, getClientIP req = some A →
        (∃ v ∈ db.votes, v.poll_id = req.id ∧ v.voter_ip = some A) →
        apiVote parseDate db req now =
          (db, .error 409 "You have already voted in this poll")) ∧
    ((∀ v ∈ db.votes, v.poll_id = req.id → v.voter_ip ≠ getClientIP req) →
        ∃ body, apiVote parseDate db req now =
          (⟨db.polls, db.votes ++ [⟨db.voteSeq + 1, req.id, (i : ℚ), getClientIP req⟩],
            db.voteSeq + 1⟩, .ok body)) := by
  have hlt : ¬ ((i : ℚ) ≥ (poll.options.length : ℚ)) := by
    simpa using hi
  have key := apiVote_of_open parseDate db req now poll (i : ℚ) hidx (by positivity) hpoll hopen
  rw [if_neg hlt] at key
  refine ⟨fun A hA hdup => ?_, fun hnew => ?_⟩
  · rw [key, hA, submitVote_duplicate db req.id (i : ℚ) A hdup]
    simp
  · rw [key, submitVote_fresh db req.id (i : ℚ) (getClientIP req) hnew]
    exact ⟨_, rfl⟩

theorem getPoll_lunchDb1 : getPoll lunchDb1 "poll-1" = .resolved (some lunchPoll) := by
  decide

theorem vote_duplicate_rejected_other_accepted_witness :
    apiVote sampleParseDate lunchDb1 (voteRequest "poll-1" (some "10.0.0.1") (some 1)) 5 =
        (lunchDb1, .error 409 "You have already voted in this poll") ∧
    ∃ body, apiVote sampleParseDate lunchDb1 (voteRequest "poll-1" (some "10.0.0.2") (some 1)) 5 =
        (lunchDb2, .ok body) :=
  ⟨(vote_duplicate_rejected_other_accepted sampleParseDate lunchDb1
      (voteRequest "poll-1" (some "10.0.0.1") (some 1)) 5 lunchPoll 1
      getPoll_lunchDb1 (by decide) (by decide) (by simp [voteRequest])).1 "10.0.0.1" (by decide)
      ⟨⟨1, "poll-1", 0, some "10.0.0.1"⟩, by simp [lunchDb1], rfl, rfl⟩,
   (vote_duplicate_rejected_other_accepted sampleParseDate lunchDb1
      (voteRequest "poll-1" (some "10.0.0.2") (some 1)) 5 lunchPoll 1
      getPoll_lunchDb1 (by decide) (by decide) (by simp [voteRequest])).2 (by decide)⟩

/-- C2: in an existing poll with `n` options that has not expired, and for a voter
address with no recorded vote in it, a vote with `optionIndex = n` is answered with
status 400 (invalid option) and leaves the database as it was, while a vote with
`optionIndex = n - 1` (written `k` with `k + 1 = n`) succeeds and appends exactly
one vote row carrying that index. -/
theorem vote_option_index_bounds
    (parseDate : String → Option Int) (db : Db) (req : Request VoteBody) (now : Int)
    (poll : Poll)
    (hpoll : getPoll db req.id = .resolved (some poll))
    (hopen : deadlinePassed parseDate poll.deadline now = false)
    (hnew : ∀ v ∈ db.votes, v.poll_id = req.id → v.voter_ip ≠ getClientIP req) :
    (req.body.optionIndex = some (poll.options.length : ℚ) →
        apiVote parseDate db req now = (db, .error 400 "Invalid option selected")) ∧
    (∀ k : Nat, k + 1 = poll.options.length → req.body.optionIndex = some (k : ℚ) →
        ∃ body, apiVote parseDate db req now =
          (⟨db.polls, db.votes ++ [⟨db.voteSeq + 1, req.id, (k : ℚ), getClientIP req⟩],
            db.voteSeq + 1⟩, .ok body)) := by
  refine ⟨fun hidx => ?_, fun k hk hidx => ?_⟩
  · rw [apiVote_of_open parseDate db req now poll _ hidx (by positivity) hpoll hopen]
    rw [if_pos (le_refl _)]
  · have hlt : ¬ ((k : ℚ) ≥ (poll.options.length : ℚ)) := by
      have : k < poll.options.length := by omega
      simpa using this
    rw [apiVote_of_open parseDate db req now poll _ hidx (by positivity) hpoll hopen]
    rw [if_neg hlt, submitVote_fresh db req.id (k : ℚ) (getClientIP req) hnew]
    exact ⟨_, rfl⟩

theorem vote_option_index_bounds_witness :
    apiVote sampleParseDate lunchDb1 (voteRequest "poll-1" (some "10.0.0.2") (some 2)) 5 =
        (lunchDb1, .error 400 "Invalid option selected") ∧
    ∃ body, apiVote sampleParseDate lunchDb1 (voteRequest "poll-1" (some "10.0.0.2") (some 1)) 5 =
        (lunchDb2, .ok body) :=
  ⟨(vote_option_index_bounds sampleParseDate lunchDb1
      (voteRequest "poll-1" (some "10.0.0.2") (some 2)) 5 lunchPoll
      getPoll_lunchDb1 (by decide) (by decide)).1 (by simp [voteRequest, lunchPoll]),
   (vote_option_index_bounds sampleParseDate lunchDb1
      (voteRequest "poll-1" (some "10.0.0.2") (some 1)) 5 lunchPoll
      getPoll_lunchDb1 (by decide) (by decide)).2 1 (by decide) (by simp [voteRequest])⟩

/-! ## The create route -/

theorem validOptions_length_le (options : List String) :
    (validOptions options).length ≤ options.length :=
  List.length_filter_le _ _

theorem length_pos_eq_bne_empty (s : String) : decide (s.length > 0) = (s != "") := by
  cases s with
  | mk cs =>
    cases cs with
    | nil => decide
    | cons c cs =>
      have hne : String.mk (c :: cs) ≠ "" := by
        intro h
        have := congrArg String.data h
        simp at this
      simp [String.length, bne_iff_ne, hne]

theorem validOptions_eq_filter (options : List String) :
    validOptions options = options.filter (fun o => jsTrim o != "") := by
  unfold validOptions
  congr 1
  funext o
  exact length_pos_eq_bne_empty (jsTrim o)

theorem createPoll_fresh (db : Db) (pollData : Poll)
    (h : db.polls.any (fun r => r.id == pollData.id) = false) :
    createPoll db pollData =
      .resolved
        (⟨db.polls ++ [⟨pollData.id, pollData.title, pollData.description,
            jsonStringify pollData.options, pollData.deadline⟩], db.votes, db.voteSeq⟩,
          pollData) := by
  unfold createPoll
  simp [h]

theorem createPoll_taken (db : Db) (pollData : Poll)
    (h : db.polls.any (fun r => r.id == pollData.id) = true) :
    createPoll db pollData = .rejected "SQLITE_CONSTRAINT: UNIQUE constraint failed: polls.id" := by
  unfold createPoll
  simp only [h, if_true]

theorem getPoll_append_fresh (db : Db) (pollData : Poll)
    (h : db.polls.any (fun r => r.id == pollData.id) = false) :
    getPoll ⟨db.polls ++ [⟨pollData.id, pollData.title, pollData.description,
        jsonStringify pollData.options, pollData.deadline⟩], db.votes, db.voteSeq⟩ pollData.id
      = .resolved (some pollData) := by
  have hnone : db.polls.find? (fun r => r.id == pollData.id) = none := by
    rw [List.find?_eq_none]
    intro r hr hid
    have := List.any_eq_false.mp h r hr
    exact this hid
  unfold getPoll
  simp only [List.find?_append, hnone, Option.none_or]
  simp [List.find?, jsonParse_jsonStringify]

theorem apiCreatePoll_accept (parseDate : String → Option Int) (db : Db)
    (req : Request CreateBody) (pollId : String) (now : Int) (options : List String)
    (hopts : req.body.options = some options)
    (htitle : truthy req.body.title = true)
    (h2 : 2 ≤ (validOptions options).length)
    (hdl : deadlinePassed parseDate req.body.deadline now = false)
    (hfresh : db.polls.any (fun r => r.id == pollId) = false) :
    apiCreatePoll parseDate db req pollId now =
      (⟨db.polls ++ [⟨pollId, jsTrim (req.body.title.getD ""),
            if truthy req.body.description then jsTrim (req.body.description.getD "") else "",
            jsonStringify (validOptions options), jsOr req.body.deadline none⟩],
          db.votes, db.voteSeq⟩,
        .ok ⟨⟨pollId, jsTrim (req.body.title.getD ""),
            if truthy req.body.description then jsTrim (req.body.description.getD "") else "",
            validOptions options, jsOr req.body.deadline none⟩,
          req.protocol ++ "://" ++ req.host ++ "/poll/" ++ pollId,
          req.protocol ++ "://" ++ req.host ++ "/results/" ++ pollId⟩) := by
  have hlen : ¬ options.length < 2 := by
    have := validOptions_length_le options
    omega
  unfold apiCreatePoll
  simp only [hopts, htitle, hdl]
  rw [if_neg (by simpa using hlen), if_neg (by omega)]
  rw [createPoll_fresh db _ hfresh]
  simp

theorem apiCreatePoll_ok_inv (parseDate : String → Option Int) (db : Db)
    (req : Request CreateBody) (pollId : String) (now : Int) (db1 : Db) (body : CreateResponse)
    (h : apiCreatePoll parseDate db req pollId now = (db1, .ok body)) :
    ∃ options, req.body.options = some options ∧ truthy req.body.title = true ∧
      2 ≤ (validOptions options).length ∧
      deadlinePassed parseDate req.body.deadline now = false ∧
      db.polls.any (fun r => r.id == pollId) = false := by
  unfold apiCreatePoll at h
  cases hopts : req.body.options with
  | none => simp [hopts] at h
  | some options =>
    simp only [hopts] at h
    refine ⟨options, rfl, ?_⟩
    by_cases c1 : (!truthy req.body.title || decide (options.length < 2)) = true
    · simp [c1] at h
    · rw [if_neg c1] at h
      by_cases c2 : (validOptions options).length < 2
      · simp [c2] at h
      · rw [if_neg c2] at h
        by_cases c3 : deadlinePassed parseDate req.body.deadline now = true
        · simp [c3] at h
        · rw [if_neg c3] at h
          by_cases c4 : db.polls.any (fun r => r.id == pollId) = true
          · rw [createPoll_taken db _ c4] at h
            simp at h
          · refine ⟨?_, by omega, by simpa using c3, by simpa using c4⟩
            simp only [Bool.or_eq_true, Bool.not_eq_true', decide_eq_true_eq, not_or] at c1
            simpa using c1.1

theorem apiCreatePoll_title_missing (parseDate : String → Option Int) (db : Db)
    (req : Request CreateBody) (pollId : String) (now : Int)
    (htitle : truthy req.body.title = false) :
    apiCreatePoll parseDate db req pollId now =
      (db, .error 400 "Title and at least 2 options are required") := by
  unfold apiCreatePoll
  cases req.body.options with
  | none => rfl
  | some options => simp [htitle]

/-- C4: the code at the failing input.  The title of three spaces is empty after
trimming, yet the create route answers with status 200 and stores a poll whose
title is the empty string. -/
theorem create_whitespace_title_is_stored :
    jsTrim "   " = "" ∧
    apiCreatePoll sampleParseDate emptyDb
        (createRequest (some "   ") (some ["Pizza", "Sushi"]) none) "poll-1" 0 =
      (⟨[⟨"poll-1", "", "", jsonStringify ["Pizza", "Sushi"], none⟩], [], 0⟩,
        .ok ⟨⟨"poll-1", "", "", ["Pizza", "Sushi"], none⟩,
          "http://localhost:3000/poll/poll-1", "http://localhost:3000/results/poll-1"⟩) := by
  decide

/-- C5, counterexample: the options `["A", "a", "A "]` are stored exactly as
submitted (three options, the third with its trailing space), whereas trimming and
removing duplicates would leave `["A", "a"]`. -/
theorem create_options_not_normalized :
    apiCreatePoll sampleParseDate emptyDb
        (createRequest (some "Letters") (some ["A", "a", "A "]) none) "poll-1" 0 =
      (⟨[⟨"poll-1", "Letters", "", jsonStringify ["A", "a", "A "], none⟩], [], 0⟩,
        .ok ⟨⟨"poll-1", "Letters", "", ["A", "a", "A "], none⟩,
          "http://localhost:3000/poll/poll-1", "http://localhost:3000/results/poll-1"⟩) ∧
    getPoll ⟨[⟨"poll-1", "Letters", "", jsonStringify ["A", "a", "A "], none⟩], [], 0⟩ "poll-1" =
      .resolved (some ⟨"poll-1", "Letters", "", ["A", "a", "A "], none⟩) ∧
    specNormalizeOptions ["A", "a", "A "] = ["A", "a"] ∧
    ["A", "a", "A "] ≠ specNormalizeOptions ["A", "a", "A "] := by
  decide

/-- C5, amended: when the create route succeeds, the options of the stored poll
(in the response and as read back from the database) are the submitted options
whose trimmed text is not empty, in their original order, each kept as submitted
(not trimmed, duplicates kept), and there are at least 2 of them; and a request
that has fewer than 2 such options is answered with status 400 and stores
nothing. -/
theorem create_stores_nonblank_options
    (parseDate : String → Option Int) (db : Db) (req : Request CreateBody) (pollId : String)
    (now : Int) (options : List String) (hopts : req.body.options = some options) :
    (∀ db1 body, apiCreatePoll parseDate db req pollId now = (db1, .ok body) →
        body.poll.options = options.filter (fun o => jsTrim o != "") ∧
        getPoll db1 pollId = .resolved (some body.poll) ∧
        2 ≤ body.poll.options.length) ∧
    ((options.filter (fun o => jsTrim o != "")).length < 2 →
        ∃ message, apiCreatePoll parseDate db req pollId now = (db, .error 400 message)) := by
  have hvalid := validOptions_eq_filter options
  refine ⟨fun db1 body h => ?_, fun hfew => ?_⟩
  · obtain ⟨options1, ho, htitle, h2, hdl, hfresh⟩ :=
      apiCreatePoll_ok_inv parseDate db req pollId now db1 body h
    rw [hopts] at ho
    cases ho
    rw [apiCreatePoll_accept parseDate db req pollId now options hopts htitle h2 hdl hfresh] at h
    simp only [Prod.mk.injEq, Response.ok.injEq] at h
    obtain ⟨hdb, hbody⟩ := h
    subst hdb hbody
    refine ⟨hvalid, ?_, h2⟩
    exact getPoll_append_fresh db ⟨pollId, _, _, _, _⟩ hfresh
  · rw [← hvalid] at hfew
    unfold apiCreatePoll
    simp only [hopts]
    by_cases c1 : (!truthy req.body.title || decide (options.length < 2)) = true
    · exact ⟨_, by rw [if_pos c1]⟩
    · exact ⟨_, by rw [if_neg c1, if_pos hfew]⟩

theorem create_stores_nonblank_options_witness :
    (∀ db1 body,
        apiCreatePoll sampleParseDate emptyDb
            (createRequest (some "Letters") (some ["A", " ", "a", "A "]) none) "poll-1" 0 =
          (db1, .ok body) →
        body.poll.options = ["A", "a", "A "] ∧
        getPoll db1 "poll-1" = .resolved (some body.poll) ∧
        2 ≤ body.poll.options.length) ∧
    ∃ message,
      apiCreatePoll sampleParseDate emptyDb
          (createRequest (some "Letters") (some ["A", " ", ""]) none) "poll-1" 0 =
        (emptyDb, .error 400 message) :=
  ⟨(create_stores_nonblank_options sampleParseDate emptyDb
      (createRequest (some "Letters") (some ["A", " ", "a", "A "]) none) "poll-1" 0
      ["A", " ", "a", "A "] rfl).1,
   (create_stores_nonblank_options sampleParseDate emptyDb
      (createRequest (some "Letters") (some ["A", " ", ""]) none) "poll-1" 0
      ["A", " ", ""] rfl).2 (by decide)⟩

/-- C6, counterexample: a request with 11 usable options succeeds and the stored
poll has 11 options. -/
theorem create_eleven_options_stored :
    apiCreatePoll sampleParseDate emptyDb
        (createRequest (some "Numbers")
          (some ["1", "2", "3", "4", "5", "6", "7", "8", "9", "10", "11"]) none) "poll-1" 0 =
      (⟨[⟨"poll-1", "Numbers", "",
            jsonStringify ["1", "2", "3", "4", "5", "6", "7", "8", "9", "10", "11"], none⟩],
          [], 0⟩,
        .ok ⟨⟨"poll-1", "Numbers", "",
            ["1", "2", "3", "4", "5", "6", "7", "8", "9", "10", "11"], none⟩,
          "http://localhost:3000/poll/poll-1", "http://localhost:3000/results/poll-1"⟩) ∧
    getPoll ⟨[⟨"poll-1", "Numbers", "",
            jsonStringify ["1", "2", "3", "4", "5", "6", "7", "8", "9", "10", "11"], none⟩],
          [], 0⟩ "poll-1" =
      .resolved (some ⟨"poll-1", "Numbers", "",
            ["1", "2", "3", "4", "5", "6", "7", "8", "9", "10", "11"], none⟩) ∧
    ¬ (["1", "2", "3", "4", "5", "6", "7", "8", "9", "10", "11"] : List String).length ≤ 10 := by
  decide

/-- C6, amended: every poll stored by a successful create request has at least 2
options (the service sets no upper limit); the limit of 10 is kept by the poll
form only, whose add-option handler never raises the number of option inputs
above 10. -/
theorem create_stores_at_least_two_options
    (parseDate : String → Option Int) (db : Db) (req : Request CreateBody) (pollId : String)
    (now : Int) (db1 : Db) (body : CreateResponse)
    (h : apiCreatePoll parseDate db req pollId now = (db1, .ok body)) :
    2 ≤ body.poll.options.length ∧
    getPoll db1 pollId = .resolved (some body.poll) ∧
    ∀ optionCount : Nat, optionCount ≤ 10 → (addOptionClick optionCount).1 ≤ 10 := by
  obtain ⟨options, hopts, htitle, h2, hdl, hfresh⟩ :=
    apiCreatePoll_ok_inv parseDate db req pollId now db1 body h
  rw [apiCreatePoll_accept parseDate db req pollId now options hopts htitle h2 hdl hfresh] at h
  simp only [Prod.mk.injEq, Response.ok.injEq] at h
  obtain ⟨hdb, hbody⟩ := h
  subst hdb hbody
  refine ⟨h2, getPoll_append_fresh db ⟨pollId, _, _, _, _⟩ hfresh, fun optionCount hc => ?_⟩
  unfold addOptionClick
  split_ifs <;> simp <;> omega

theorem create_stores_at_least_two_options_witness :
    2 ≤ lunchPoll.options.length ∧
    getPoll lunchDb "poll-1" = .resolved (some lunchPoll) ∧
    ∀ optionCount : Nat, optionCount ≤ 10 → (addOptionClick optionCount).1 ≤ 10 :=
  create_stores_at_least_two_options sampleParseDate emptyDb
    (createRequest (some "Lunch") (some ["Pizza", "Sushi"]) none) "poll-1" 0 lunchDb
    ⟨lunchPoll, "http://localhost:3000/poll/poll-1", "http://localhost:3000/results/poll-1"⟩
    (by decide)

/-- C8: for a create request with a non-empty title and at least 2 usable options,
a deadline that is present and denotes an instant not later than the current time
is answered with status 400 (deadline must be in the future) and stores nothing;
when the deadline is absent (or the empty string) or denotes an instant strictly
later than the current time, the answer is not the deadline error, and with an
unused identifier the poll is stored. -/
theorem create_deadline_check
    (parseDate : String → Option Int) (db : Db) (req : Request CreateBody) (pollId : String)
    (now : Int) (title : String) (options : List String)
    (htitle : req.body.title = some title) (hne : title ≠ "")
    (hopts : req.body.options = some options) (h2 : 2 ≤ (validOptions options).length) :
    (∀ d t, req.body.deadline = some d → d ≠ "" → parseDate d = some t → t ≤ now →
        apiCreatePoll parseDate db req pollId now =
          (db, .error 400 "Deadline must be in the future")) ∧
    ((truthy req.body.deadline = false ∨
        ∃ d t, req.body.deadline = some d ∧ parseDate d = some t ∧ now < t) →
      (apiCreatePoll parseDate db req pollId now).2 ≠
          .error 400 "Deadline must be in the future" ∧
      (db.polls.any (fun r => r.id == pollId) = false →
        ∃ db1 body, apiCreatePoll parseDate db req pollId now = (db1, .ok body) ∧
          getPoll db1 pollId = .resolved (some body.poll) ∧
          body.poll.deadline = jsOr req.body.deadline none)) := by
  have htruthy : truthy req.body.title = true := by
    simp [truthy, htitle, hne]
  have hlen : ¬ options.length < 2 := by
    have := validOptions_length_le options
    omega
  refine ⟨fun d t hd hdne hp hle => ?_, fun hok => ?_⟩
  · have hpassed : deadlinePassed parseDate req.body.deadline now = true := by
      simp [deadlinePassed, hd, hdne, dateNotAfter, hp, hle]
    unfold apiCreatePoll
    simp only [hopts, htruthy, hpassed]
    rw [if_neg (by simpa using hlen), if_neg (by omega)]
    simp
  · have hnot : deadlinePassed parseDate req.body.deadline now = false := by
      rcases hok with hfalsy | ⟨d, t, hd, hp, hlt⟩
      · cases hd : req.body.deadline with
        | none => simp [deadlinePassed]
        | some d =>
          rw [hd] at hfalsy
          simp only [truthy] at hfalsy
          simp [deadlinePassed, hfalsy]
      · simp [deadlinePassed, hd, dateNotAfter, hp, not_le.mpr hlt]
    constructor
    · by_cases hfresh : db.polls.any (fun r => r.id == pollId) = true
      · unfold apiCreatePoll
        simp only [hopts, htruthy, hnot]
        rw [if_neg (by simpa using hlen), if_neg (by omega)]
        rw [createPoll_taken db _ hfresh]
        simp
      · rw [apiCreatePoll_accept parseDate db req pollId now options hopts htruthy h2 hnot
          (by simpa using hfresh)]
        simp
    · intro hfresh
      rw [apiCreatePoll_accept parseDate db req pollId now options hopts htruthy h2 hnot hfresh]
      exact ⟨_, _, rfl, getPoll_append_fresh db ⟨pollId, _, _, _, _⟩ hfresh, rfl⟩

theorem create_deadline_check_witness :
    apiCreatePoll sampleParseDate emptyDb
        (createRequest (some "Lunch") (some ["Pizza", "Sushi"]) (some "1000")) "poll-1" 1000 =
      (emptyDb, .error 400 "Deadline must be in the future") ∧
    (apiCreatePoll sampleParseDate emptyDb
        (createRequest (some "Lunch") (some ["Pizza", "Sushi"]) (some "1001")) "poll-1" 1000).2 ≠
      .error 400 "Deadline must be in the future" :=
  ⟨(create_deadline_check sampleParseDate emptyDb
      (createRequest (some "Lunch") (some ["Pizza", "Sushi"]) (some "1000")) "poll-1" 1000
      "Lunch" ["Pizza", "Sushi"] rfl (by decide) rfl (by decide)).1 "1000" 1000 rfl (by decide)
      (by decide) (le_refl _),
   ((create_deadline_check sampleParseDate emptyDb
      (createRequest (some "Lunch") (some ["Pizza", "Sushi"]) (some "1001")) "poll-1" 1000
      "Lunch" ["Pizza", "Sushi"] rfl (by decide) rfl (by decide)).2
      (Or.inr ⟨"1001", 1001, rfl, by decide, by decide⟩)).1⟩

/-! ## Expiry -/

theorem deadlinePassed_iff (parseDate : String → Option Int) (deadline : Option String)
    (now : Int) :
    deadlinePassed parseDate deadline now = true ↔
      ∃ d t, deadline = some d ∧ d ≠ "" ∧ parseDate d = some t ∧ t ≤ now := by
  cases deadline with
  | none => simp [deadlinePassed]
  | some d =>
    cases hp : parseDate d with
    | none => simp [deadlinePassed, dateNotAfter, hp]
    | some t => simp [deadlinePassed, dateNotAfter, hp]

/-- C7: for an existing poll and a vote request whose `optionIndex` is present and
not negative, made at time `now`, the answer is the expired error (status 400, this
poll has expired) if and only if the poll has a deadline (a non-empty string) that
denotes an instant not after `now`, and in that case the database is left as it
was.  Consequently, for a poll without deadline the vote route never answers with
the expired error and the poll route reports no expiry (`isExpired` is the null
deadline itself), at every time. -/
theorem vote_expired_iff
    (parseDate : String → Option Int) (db : Db) (req : Request VoteBody) (now : Int)
    (poll : Poll) (q : ℚ)
    (hpoll : getPoll db req.id = .resolved (some poll))
    (hidx : req.body.optionIndex = some q) (hq : 0 ≤ q) :
    ((apiVote parseDate db req now).2 = .error 400 "This poll has expired" ↔
        ∃ d t, poll.deadline = some d ∧ d ≠ "" ∧ parseDate d = some t ∧ t ≤ now) ∧
    ((apiVote parseDate db req now).2 = .error 400 "This poll has expired" →
        (apiVote parseDate db req now).1 = db) ∧
    (poll.deadline = none →
        ∀ (later : Int) (read : Request Unit), read.id = req.id →
          (apiVote parseDate db req later).2 ≠ .error 400 "This poll has expired" ∧
          apiGetPoll parseDate db read later = .ok ⟨poll, none⟩) := by
  have hunfold : ∀ t : Int, apiVote parseDate db req t =
      if deadlinePassed parseDate poll.deadline t then (db, .error 400 "This poll has expired")
      else if q ≥ (poll.options.length : ℚ) then (db, .error 400 "Invalid option selected")
      else
        match submitVote db req.id q (getClientIP req) with
        | .resolved (db1, _) =>
          (db1, .ok ⟨"Vote submitted successfully",
            req.protocol ++ "://" ++ req.host ++ "/results/" ++ req.id⟩)
        | .rejected message =>
          if message = "You have already voted in this poll" then (db, .error 409 message)
          else (db, .error 500 "Failed to submit vote")
        | .thrown => (db, .uncaught) := by
    intro t
    unfold apiVote
    simp only [hidx, hpoll]
    rw [if_neg (not_lt.mpr hq)]
  have hiff : ∀ t : Int, (apiVote parseDate db req t).2 = .error 400 "This poll has expired" ↔
      deadlinePassed parseDate poll.deadline t = true := by
    intro t
    rw [hunfold t]
    by_cases hp : deadlinePassed parseDate poll.deadline t = true
    · simp [hp]
    · simp only [hp, Bool.false_eq_true, if_false, iff_false]
      by_cases hge : q ≥ (poll.options.length : ℚ)
      · rw [if_pos hge]
        simp
      · rw [if_neg hge]
        cases submitVote db req.id q (getClientIP req) with
        | resolved value => simp
        | rejected message =>
          by_cases hm : message = "You have already voted in this poll"
          · simp [hm]
          · simp [hm]
        | thrown => simp
  refine ⟨?_, ?_, ?_⟩
  · rw [hiff now, deadlinePassed_iff]
  · intro hexp
    rw [hiff now] at hexp
    rw [hunfold now, if_pos hexp]
  · intro hnone later read hread
    refine ⟨?_, ?_⟩
    · intro hexp
      rw [hiff later, hnone] at hexp
      simp [deadlinePassed] at hexp
    · unfold apiGetPoll
      rw [hread, hpoll]
      simp [isExpired, hnone]

theorem vote_expired_iff_witness :
    ((apiVote sampleParseDate lunchDb1 (voteRequest "poll-1" (some "10.0.0.2") (some 1)) 5).2 =
        .error 400 "This poll has expired" ↔
      ∃ d t, lunchPoll.deadline = some d ∧ d ≠ "" ∧ sampleParseDate d = some t ∧ t ≤ 5) ∧
    ∀ (later : Int) (read : Request Unit), read.id = "poll-1" →
      (apiVote sampleParseDate lunchDb1 (voteRequest "poll-1" (some "10.0.0.2") (some 1)) later).2
          ≠ .error 400 "This poll has expired" ∧
      apiGetPoll sampleParseDate lunchDb1 read later = .ok ⟨lunchPoll, none⟩ :=
  ⟨(vote_expired_iff sampleParseDate lunchDb1 (voteRequest "poll-1" (some "10.0.0.2") (some 1)) 5
      lunchPoll 1 getPoll_lunchDb1 rfl (by norm_num)).1,
   (vote_expired_iff sampleParseDate lunchDb1 (voteRequest "poll-1" (some "10.0.0.2") (some 1)) 5
      lunchPoll 1 getPoll_lunchDb1 rfl (by norm_num)).2.2 rfl⟩

/-! ## Sequences of calls: what a call can change -/

theorem apiCreatePoll_db (parseDate : String → Option Int) (db : Db)
    (req : Request CreateBody) (pollId : String) (now : Int) :
    (apiCreatePoll parseDate db req pollId now).1 = db ∨
    (db.polls.any (fun r => r.id == pollId) = false ∧
      ∃ row : PollRow, row.id = pollId ∧
        (apiCreatePoll parseDate db req pollId now).1 =
          ⟨db.polls ++ [row], db.votes, db.voteSeq⟩) := by
  unfold apiCreatePoll
  cases req.body.options with
  | none => exact Or.inl rfl
  | some options =>
    simp only
    split_ifs <;>
      first
      | exact Or.inl rfl
      | (by_cases c4 : db.polls.any (fun r => r.id == pollId) = true
         · rw [createPoll_taken db _ c4]
           exact Or.inl rfl
         · have c5 : db.polls.any (fun r => r.id == pollId) = false := by simpa using c4
           rw [createPoll_fresh db _ c5]
           exact Or.inr ⟨c5, _, rfl, rfl⟩)

theorem apiVote_db (parseDate : String → Option Int) (db : Db) (req : Request VoteBody)
    (now : Int) :
    (apiVote parseDate db req now).1 = db ∨
    (db.votes.any (fun v => v.poll_id == req.id && sqlEq v.voter_ip (getClientIP req)) = false ∧
      ∃ q : ℚ, (apiVote parseDate db req now).1 =
        ⟨db.polls, db.votes ++ [⟨db.voteSeq + 1, req.id, q, getClientIP req⟩],
          db.voteSeq + 1⟩) := by
  unfold apiVote
  cases req.body.optionIndex with
  | none => exact Or.inl rfl
  | some q =>
    simp only
    split_ifs with c1
    · exact Or.inl rfl
    · cases getPoll db req.id with
      | thrown => exact Or.inl rfl
      | rejected message => exact Or.inl rfl
      | resolved found =>
        cases found with
        | none => exact Or.inl rfl
        | some poll =>
          simp only
          split_ifs with c2 c3
          · exact Or.inl rfl
          · exact Or.inl rfl
          · unfold submitVote
            by_cases c4 : db.votes.any
                (fun v => v.poll_id == req.id && sqlEq v.voter_ip (getClientIP req)) = true
            · rw [if_pos c4]
              simp
            · rw [if_neg c4]
              exact Or.inr ⟨by simpa using c4, q, rfl⟩

theorem step_find_poll (parseDate : String → Option Int) (db : Db) (call : Call)
    (pollId : String) (row : PollRow)
    (h : db.polls.find? (fun r => r.id == pollId) = some row) :
    (step parseDate db call).polls.find? (fun r => r.id == pollId) = some row := by
  cases call with
  | createPoll req newId now =>
    rcases apiCreatePoll_db parseDate db req newId now with hsame | ⟨_, newRow, _, hnew⟩
    · simp only [step, hsame, h]
    · simp only [step, hnew, List.find?_append, h]
      rfl
  | submitVote req now =>
    rcases apiVote_db parseDate db req now with hsame | ⟨_, q, hnew⟩
    · simp only [step, hsame, h]
    · simp only [step, hnew, h]

theorem run_find_poll (parseDate : String → Option Int) (calls : List Call) :
    ∀ (db : Db) (pollId : String) (row : PollRow),
      db.polls.find? (fun r => r.id == pollId) = some row →
      (run parseDate db calls).polls.find? (fun r => r.id == pollId) = some row := by
  induction calls with
  | nil => intro db pollId row h; exact h
  | cons call calls ih =>
    intro db pollId row h
    exact ih (step parseDate db call) pollId row (step_find_poll parseDate db call pollId row h)

theorem getPoll_of_find (db : Db) (pollId : String) (row : PollRow) (options : List String)
    (h : db.polls.find? (fun r => r.id == pollId) = some row)
    (hparse : jsonParse row.options = some options) :
    getPoll db pollId =
      .resolved (some ⟨row.id, row.title, row.description, options, row.deadline⟩) := by
  unfold getPoll
  simp [h, hparse]

theorem validOptions_of_clean (options : List String)
    (hclean : ∀ o ∈ options, o ≠ "" ∧ jsTrim o = o) : validOptions options = options := by
  rw [validOptions_eq_filter, List.filter_eq_self]
  intro o ho
  obtain ⟨hne, htrim⟩ := hclean o ho
  rw [htrim]
  simpa using hne

/-- C9: a create request with a non-empty title, an acceptable deadline, an unused
identifier and at least 2 options that are non-empty and already trimmed
(distinct or not) succeeds and returns the poll with that identifier and exactly
the submitted sequence of options; and after any sequence of later create and vote
calls, fetching the poll by that identifier returns exactly the same sequence of
options. -/
theorem create_then_get_roundtrip
    (parseDate : String → Option Int) (db : Db) (req : Request CreateBody) (pollId : String)
    (now : Int) (title : String) (options : List String)
    (htitle : req.body.title = some title) (hne : title ≠ "")
    (hopts : req.body.options = some options) (h2 : 2 ≤ options.length)
    (hclean : ∀ o ∈ options, o ≠ "" ∧ jsTrim o = o)
    (hdl : deadlinePassed parseDate req.body.deadline now = false)
    (hfresh : db.polls.any (fun r => r.id == pollId) = false) :
    ∃ db1 body, apiCreatePoll parseDate db req pollId now = (db1, .ok body) ∧
      body.poll.id = pollId ∧ body.poll.options = options ∧
      ∀ (calls : List Call) (read : Request Unit) (later : Int), read.id = pollId →
        ∃ fetched, apiGetPoll parseDate (run parseDate db1 calls) read later = .ok fetched ∧
          fetched.poll.options = options := by
  have htruthy : truthy req.body.title = true := by
    simp [truthy, htitle, hne]
  have hvalid := validOptions_of_clean options hclean
  have hacc := apiCreatePoll_accept parseDate db req pollId now options hopts htruthy
    (by rw [hvalid]; exact h2) hdl hfresh
  rw [hvalid] at hacc
  refine ⟨_, _, hacc, rfl, rfl, fun calls read later hread => ?_⟩
  have hnone : db.polls.find? (fun r => r.id == pollId) = none := by
    rw [List.find?_eq_none]
    intro r hr hid
    exact List.any_eq_false.mp hfresh r hr hid
  have hfind := run_find_poll parseDate calls
    ⟨db.polls ++ [⟨pollId, jsTrim (req.body.title.getD ""),
        if truthy req.body.description then jsTrim (req.body.description.getD "") else "",
        jsonStringify options, jsOr req.body.deadline none⟩], db.votes, db.voteSeq⟩ pollId
    ⟨pollId, jsTrim (req.body.title.getD ""),
        if truthy req.body.description then jsTrim (req.body.description.getD "") else "",
        jsonStringify options, jsOr req.body.deadline none⟩
    (by simp [List.find?_append, hnone, List.find?])
  have hget := getPoll_of_find _ pollId _ options hfind (jsonParse_jsonStringify options)
  unfold apiGetPoll
  rw [hread, hget]
  exact ⟨_, rfl, rfl⟩

theorem create_then_get_roundtrip_witness :
    ∃ db1 body,
      apiCreatePoll sampleParseDate lunchDb2
          (createRequest (some "Colours") (some ["Red", "Blue", "Green"]) none) "poll-2" 7 =
        (db1, .ok body) ∧
      body.poll.id = "poll-2" ∧ body.poll.options = ["Red", "Blue", "Green"] ∧
      ∀ (calls : List Call) (read : Request Unit) (later : Int), read.id = "poll-2" →
        ∃ fetched, apiGetPoll sampleParseDate (run sampleParseDate db1 calls) read later =
            .ok fetched ∧
          fetched.poll.options = ["Red", "Blue", "Green"] :=
  create_then_get_roundtrip sampleParseDate lunchDb2
    (createRequest (some "Colours") (some ["Red", "Blue", "Green"]) none) "poll-2" 7
    "Colours" ["Red", "Blue", "Green"] rfl (by decide) rfl (by decide) (by decide) (by decide)
    (by decide)

/-! ## One vote per address -/

theorem step_uniqueAddresses (parseDate : String → Option Int) (db : Db) (call : Call)
    (h : UniqueAddresses db.votes) : UniqueAddresses (step parseDate db call).votes := by
  cases call with
  | createPoll req newId now =>
    rcases apiCreatePoll_db parseDate db req newId now with hsame | ⟨_, newRow, _, hnew⟩
    · simpa only [step, hsame] using h
    · simpa only [step, hnew] using h
  | submitVote req now =>
    rcases apiVote_db parseDate db req now with hsame | ⟨hany, q, hnew⟩
    · simpa only [step, hsame] using h
    · simp only [step, hnew]
      unfold UniqueAddresses at h ⊢
      rw [List.pairwise_append]
      refine ⟨h, List.pairwise_singleton _ _, ?_⟩
      intro v hv w hw hpoll hip
      rw [List.mem_singleton] at hw
      subst hw
      cases hvip : v.voter_ip with
      | none => rfl
      | some a =>
        exfalso
        have hno := List.any_eq_false.mp hany v hv
        apply hno
        simp only at hpoll hip
        rw [Bool.and_eq_true]
        refine ⟨by simpa using hpoll, ?_⟩
        rw [← hip, hvip]
        exact sqlEq_some a

/-- In every database reached from the empty one by create and vote calls, two
different vote rows of the same poll never carry the same non-null address. -/
theorem run_uniqueAddresses (parseDate : String → Option Int) (calls : List Call) :
    ∀ db : Db, UniqueAddresses db.votes → UniqueAddresses (run parseDate db calls).votes := by
  induction calls with
  | nil => intro db h; exact h
  | cons call calls ih =>
    intro db h
    exact ih (step parseDate db call) (step_uniqueAddresses parseDate db call h)

/-- C10: the code at the failing input.  A request without forwarded-for header
and without peer address gives the voter address `null`; after one create call,
two such vote requests on the same poll are both recorded, so the reachable
database holds two votes for the pair (poll-1, null). -/
theorem null_address_votes_twice :
    getClientIP (voteRequest "poll-1" none (some 0)) = none ∧
    run sampleParseDate emptyDb
        [.createPoll (createRequest (some "Lunch") (some ["Pizza", "Sushi"]) none) "poll-1" 0,
          .submitVote (voteRequest "poll-1" none (some 0)) 1,
          .submitVote (voteRequest "poll-1" none (some 1)) 2] =
      ⟨[⟨"poll-1", "Lunch", "", jsonStringify ["Pizza", "Sushi"], none⟩],
        [⟨1, "poll-1", 0, none⟩, ⟨2, "poll-1", 1, none⟩], 2⟩ := by
  decide

/-! ## Double-precision arithmetic: error bounds -/

theorem log2Fuel_spec (fuel : Nat) : ∀ n : Nat, 1 ≤ n → n ≤ fuel →
    2 ^ log2Fuel fuel n ≤ n ∧ n < 2 ^ (log2Fuel fuel n + 1) := by
  induction fuel with
  | zero => intro n h1 h2; omega
  | succ fuel ih =>
    intro n h1 h2
    unfold log2Fuel
    by_cases hn : n < 2
    · rw [if_pos hn]
      simp
      omega
    · rw [if_neg hn]
      have := ih (n / 2) (by omega) (by omega)
      rw [pow_succ, pow_succ]
      rw [pow_succ] at this
      omega

theorem floorLog2_spec (n : Nat) (h : 1 ≤ n) :
    2 ^ floorLog2 n ≤ n ∧ n < 2 ^ (floorLog2 n + 1) :=
  log2Fuel_spec n n h (le_refl n)

theorem abs_round_le_half (num den : Nat) (hden : 0 < den) :
    |(((if 2 * (num % den) < den then num / den
        else if den < 2 * (num % den) then num / den + 1
        else if (num / den) % 2 = 0 then num / den else num / den + 1 : Nat) : ℚ))
      - (num : ℚ) / den| ≤ 1 / 2 := by
  have hdq : (0 : ℚ) < den := by exact_mod_cast hden
  have hsplit : (num : ℚ) = (den : ℚ) * (num / den : Nat) + (num % den : Nat) := by
    exact_mod_cast (Nat.div_add_mod num den).symm
  have hrlt : ((num % den : Nat) : ℚ) < den := by exact_mod_cast Nat.mod_lt num hden
  have hr0 : (0 : ℚ) ≤ ((num % den : Nat) : ℚ) := by positivity
  have hquot : (num : ℚ) / den = (num / den : Nat) + ((num % den : Nat) : ℚ) / den := by
    field_simp
    linarith
  rw [hquot]
  rw [abs_le]
  split_ifs with h1 h2 h3
  · have h1q : (2 : ℚ) * ((num % den : Nat) : ℚ) < den := by exact_mod_cast h1
    have hle : ((num % den : Nat) : ℚ) / den ≤ 1 / 2 := by
      rw [div_le_iff₀ hdq]; linarith
    have hge : (0 : ℚ) ≤ ((num % den : Nat) : ℚ) / den := by positivity
    constructor <;> linarith
  · have h2q : (den : ℚ) < 2 * ((num % den : Nat) : ℚ) := by exact_mod_cast h2
    have hge : (1 : ℚ) / 2 ≤ ((num % den : Nat) : ℚ) / den := by
      rw [le_div_iff₀ hdq]; linarith
    have hle : ((num % den : Nat) : ℚ) / den ≤ 1 := by
      rw [div_le_iff₀ hdq]; linarith
    push_cast
    constructor <;> linarith
  · have heq : (2 : ℚ) * ((num % den : Nat) : ℚ) = den := by
      have : 2 * (num % den) = den := by omega
      exact_mod_cast this
    have hval : ((num % den : Nat) : ℚ) / den = 1 / 2 := by
      rw [div_eq_iff hdq.ne']; linarith
    rw [hval]
    constructor <;> linarith
  · have heq : (2 : ℚ) * ((num % den : Nat) : ℚ) = den := by
      have : 2 * (num % den) = den := by omega
      exact_mod_cast this
    have hval : ((num % den : Nat) : ℚ) / den = 1 / 2 := by
      rw [div_eq_iff hdq.ne']; linarith
    rw [hval]
    push_cast
    constructor <;> linarith

theorem roundRatio_spec (a b : Nat) (ha : 0 < a) (hb : 0 < b) :
    ∃ (num den m : Nat) (e : Int), 0 < den ∧ roundRatio a b = ⟨m, e⟩ ∧
      (num : ℚ) / den * (2 : ℚ) ^ e = (a : ℚ) / b ∧ 2 ^ 52 * den ≤ num ∧
      |(m : ℚ) - (num : ℚ) / den| ≤ 1 / 2 := by
  obtain ⟨hla1, -⟩ := floorLog2_spec a ha
  obtain ⟨-, hlb2⟩ := floorLog2_spec b hb
  have haq : (0 : ℚ) < a := by exact_mod_cast ha
  have hbq : (0 : ℚ) < b := by exact_mod_cast hb
  have hne : ¬ (a = 0 ∨ b = 0) := by omega
  have hden : 0 < b * 2 ^ ((floorLog2 a : Int) - (floorLog2 b : Int) - 52).toNat := by positivity
  -- the scaled quotient is at least 2 ^ 51
  have hlow : 2 ^ 51 * (b * 2 ^ ((floorLog2 a : Int) - (floorLog2 b : Int) - 52).toNat)
      ≤ a * 2 ^ (-((floorLog2 a : Int) - (floorLog2 b : Int) - 52)).toNat := by
    calc 2 ^ 51 * (b * 2 ^ ((floorLog2 a : Int) - (floorLog2 b : Int) - 52).toNat)
        ≤ 2 ^ 51 * (2 ^ (floorLog2 b + 1)
            * 2 ^ ((floorLog2 a : Int) - (floorLog2 b : Int) - 52).toNat) := by
          apply Nat.mul_le_mul_left
          apply Nat.mul_le_mul_right
          exact hlb2.le
      _ = 2 ^ (51 + (floorLog2 b + 1 + ((floorLog2 a : Int) - (floorLog2 b : Int) - 52).toNat)) := by
          ring
      _ = 2 ^ (floorLog2 a + (-((floorLog2 a : Int) - (floorLog2 b : Int) - 52)).toNat) := by
          congr 1
          omega
      _ = 2 ^ floorLog2 a * 2 ^ (-((floorLog2 a : Int) - (floorLog2 b : Int) - 52)).toNat := by
          rw [pow_add]
      _ ≤ a * 2 ^ (-((floorLog2 a : Int) - (floorLog2 b : Int) - 52)).toNat := by
          apply Nat.mul_le_mul_right
          exact hla1
  -- the scaling by a power of two
  have hscale : ((a * 2 ^ (-((floorLog2 a : Int) - (floorLog2 b : Int) - 52)).toNat : Nat) : ℚ)
      / ((b * 2 ^ ((floorLog2 a : Int) - (floorLog2 b : Int) - 52).toNat : Nat) : ℚ)
      * (2 : ℚ) ^ ((floorLog2 a : Int) - (floorLog2 b : Int) - 52) = (a : ℚ) / b := by
    generalize ((floorLog2 a : Int) - (floorLog2 b : Int) - 52) = e0
    rcases Int.eq_nat_or_neg e0 with ⟨k, rfl | rfl⟩
    · simp only [Int.toNat_ofNat, zpow_natCast]
      have : (-(k : Int)).toNat = 0 := by omega
      rw [this]
      push_cast
      field_simp
      ring
    · simp only [neg_neg, Int.toNat_ofNat, zpow_neg, zpow_natCast]
      have : (-(k : Int)).toNat = 0 := by omega
      rw [this]
      push_cast
      field_simp
      ring
  unfold roundRatio
  rw [if_neg hne]
  simp only
  by_cases c : a * 2 ^ (-((floorLog2 a : Int) - (floorLog2 b : Int) - 52)).toNat
      < 2 ^ 52 * (b * 2 ^ ((floorLog2 a : Int) - (floorLog2 b : Int) - 52).toNat)
  · simp only [if_pos c]
    refine ⟨2 * (a * 2 ^ (-((floorLog2 a : Int) - (floorLog2 b : Int) - 52)).toNat),
      b * 2 ^ ((floorLog2 a : Int) - (floorLog2 b : Int) - 52).toNat, _,
      (floorLog2 a : Int) - (floorLog2 b : Int) - 52 - 1, hden, ?_, ?_, by omega,
      abs_round_le_half _ _ hden⟩
    · split_ifs <;> rfl
    · rw [zpow_sub_one₀ (by norm_num : (2 : ℚ) ≠ 0), ← hscale]
      push_cast
      field_simp
      ring
  · simp only [if_neg c]
    refine ⟨a * 2 ^ (-((floorLog2 a : Int) - (floorLog2 b : Int) - 52)).toNat,
      b * 2 ^ ((floorLog2 a : Int) - (floorLog2 b : Int) - 52).toNat, _,
      (floorLog2 a : Int) - (floorLog2 b : Int) - 52, hden, ?_, hscale, by omega,
      abs_round_le_half _ _ hden⟩
    split_ifs <;> rfl

theorem Dbl.toRat_nonneg (x : Dbl) : 0 ≤ x.toRat := by
  unfold Dbl.toRat
  positivity

theorem roundRatio_close (a b : Nat) (hb : 0 < b) :
    (1 - 1 / 2 ^ 53) * ((a : ℚ) / b) ≤ (roundRatio a b).toRat ∧
    (roundRatio a b).toRat ≤ (1 + 1 / 2 ^ 53) * ((a : ℚ) / b) := by
  rcases Nat.eq_zero_or_pos a with ha | ha
  · subst ha
    simp [roundRatio, Dbl.toRat]
  · obtain ⟨num, den, m, e, hden, hr, hscale, hlow, habs⟩ := roundRatio_spec a b ha hb
    rw [hr, ← hscale]
    simp only [Dbl.toRat]
    have hp : (0 : ℚ) < (2 : ℚ) ^ e := by positivity
    have hdq : (0 : ℚ) < den := by exact_mod_cast hden
    have hy : (2 : ℚ) ^ 52 ≤ (num : ℚ) / den := by
      rw [le_div_iff₀ hdq]
      exact_mod_cast hlow
    obtain ⟨h1, h2⟩ := abs_le.mp habs
    have hprod : 0 ≤ ((num : ℚ) / den - 2 ^ 52) * (2 : ℚ) ^ e :=
      mul_nonneg (by linarith) hp.le
    have hm1 : ((num : ℚ) / den - 1 / 2) * (2 : ℚ) ^ e ≤ (m : ℚ) * (2 : ℚ) ^ e :=
      mul_le_mul_of_nonneg_right (by linarith) hp.le
    have hm2 : (m : ℚ) * (2 : ℚ) ^ e ≤ ((num : ℚ) / den + 1 / 2) * (2 : ℚ) ^ e :=
      mul_le_mul_of_nonneg_right (by linarith) hp.le
    constructor
    · nlinarith
    · nlinarith

theorem ofNat_hundred : (Dbl.ofNat 100).toRat = 100 := by
  have h : Dbl.ofNat 100 = ⟨7036874417766400, -46⟩ := by decide!
  rw [h]
  simp only [Dbl.toRat]
  norm_num

theorem Dbl.toRat_div (x y : Dbl) :
    (x.div y).toRat = (roundRatio x.m y.m).toRat * ((2 : ℚ) ^ x.e / (2 : ℚ) ^ y.e) := by
  simp only [Dbl.div, Dbl.toRat]
  rw [zpow_sub₀ (by norm_num : (2 : ℚ) ≠ 0), zpow_add₀ (by norm_num : (2 : ℚ) ≠ 0)]
  ring

theorem Dbl.toRat_mul (x y : Dbl) :
    (x.mul y).toRat = (roundRatio (x.m * y.m) 1).toRat * ((2 : ℚ) ^ x.e * (2 : ℚ) ^ y.e) := by
  simp only [Dbl.mul, Dbl.toRat]
  rw [zpow_add₀ (by norm_num : (2 : ℚ) ≠ 0), zpow_add₀ (by norm_num : (2 : ℚ) ≠ 0)]
  ring

theorem Dbl.div_close (x y : Dbl) (hy : 0 < y.m) :
    (1 - 1 / 2 ^ 53) * (x.toRat / y.toRat) ≤ (x.div y).toRat ∧
    (x.div y).toRat ≤ (1 + 1 / 2 ^ 53) * (x.toRat / y.toRat) := by
  obtain ⟨h1, h2⟩ := roundRatio_close x.m y.m hy
  have hs : (0 : ℚ) ≤ (2 : ℚ) ^ x.e / (2 : ℚ) ^ y.e := by positivity
  have hymq : (0 : ℚ) < y.m := by exact_mod_cast hy
  have hq : x.toRat / y.toRat = (x.m : ℚ) / y.m * ((2 : ℚ) ^ x.e / (2 : ℚ) ^ y.e) := by
    simp only [Dbl.toRat]
    field_simp
  rw [Dbl.toRat_div, hq]
  constructor
  · calc (1 - 1 / 2 ^ 53) * ((x.m : ℚ) / y.m * ((2 : ℚ) ^ x.e / (2 : ℚ) ^ y.e))
        = ((1 - 1 / 2 ^ 53) * ((x.m : ℚ) / y.m)) * ((2 : ℚ) ^ x.e / (2 : ℚ) ^ y.e) := by ring
      _ ≤ (roundRatio x.m y.m).toRat * ((2 : ℚ) ^ x.e / (2 : ℚ) ^ y.e) :=
          mul_le_mul_of_nonneg_right h1 hs
  · calc (roundRatio x.m y.m).toRat * ((2 : ℚ) ^ x.e / (2 : ℚ) ^ y.e)
        ≤ ((1 + 1 / 2 ^ 53) * ((x.m : ℚ) / y.m)) * ((2 : ℚ) ^ x.e / (2 : ℚ) ^ y.e) :=
          mul_le_mul_of_nonneg_right h2 hs
      _ = (1 + 1 / 2 ^ 53) * ((x.m : ℚ) / y.m * ((2 : ℚ) ^ x.e / (2 : ℚ) ^ y.e)) := by ring

theorem Dbl.mul_close (x y : Dbl) :
    (1 - 1 / 2 ^ 53) * (x.toRat * y.toRat) ≤ (x.mul y).toRat ∧
    (x.mul y).toRat ≤ (1 + 1 / 2 ^ 53) * (x.toRat * y.toRat) := by
  obtain ⟨h1, h2⟩ := roundRatio_close (x.m * y.m) 1 Nat.one_pos
  have hs : (0 : ℚ) ≤ (2 : ℚ) ^ x.e * (2 : ℚ) ^ y.e := by positivity
  have hq : x.toRat * y.toRat = ((x.m * y.m : Nat) : ℚ) / (1 : Nat) * ((2 : ℚ) ^ x.e * (2 : ℚ) ^ y.e) := by
    simp only [Dbl.toRat]
    push_cast
    ring
  rw [Dbl.toRat_mul, hq]
  constructor
  · calc (1 - 1 / 2 ^ 53) * (((x.m * y.m : Nat) : ℚ) / (1 : Nat) * ((2 : ℚ) ^ x.e * (2 : ℚ) ^ y.e))
        = ((1 - 1 / 2 ^ 53) * (((x.m * y.m : Nat) : ℚ) / (1 : Nat))) * ((2 : ℚ) ^ x.e * (2 : ℚ) ^ y.e) := by
          ring
      _ ≤ (roundRatio (x.m * y.m) 1).toRat * ((2 : ℚ) ^ x.e * (2 : ℚ) ^ y.e) :=
          mul_le_mul_of_nonneg_right h1 hs
  · calc (roundRatio (x.m * y.m) 1).toRat * ((2 : ℚ) ^ x.e * (2 : ℚ) ^ y.e)
        ≤ ((1 + 1 / 2 ^ 53) * (((x.m * y.m : Nat) : ℚ) / (1 : Nat))) * ((2 : ℚ) ^ x.e * (2 : ℚ) ^ y.e) :=
          mul_le_mul_of_nonneg_right h2 hs
      _ = (1 + 1 / 2 ^ 53) * (((x.m * y.m : Nat) : ℚ) / (1 : Nat) * ((2 : ℚ) ^ x.e * (2 : ℚ) ^ y.e)) := by
          ring

theorem Dbl.ofNat_close (n : Nat) :
    (1 - 1 / 2 ^ 53) * (n : ℚ) ≤ (Dbl.ofNat n).toRat ∧
    (Dbl.ofNat n).toRat ≤ (1 + 1 / 2 ^ 53) * (n : ℚ) := by
  have := roundRatio_close n 1 Nat.one_pos
  simpa [Dbl.ofNat] using this

theorem Dbl.ofNat_m_pos (n : Nat) (hn : 0 < n) : 0 < (Dbl.ofNat n).m := by
  have h := (Dbl.ofNat_close n).1
  have hnq : (0 : ℚ) < n := by exact_mod_cast hn
  have hpos : (0 : ℚ) < (Dbl.ofNat n).toRat := by
    have : (0 : ℚ) < (1 - 1 / 2 ^ 53) * (n : ℚ) := by
      apply mul_pos _ hnq
      norm_num
    linarith
  rcases Nat.eq_zero_or_pos (Dbl.ofNat n).m with h0 | h0
  · simp [Dbl.toRat, h0] at hpos
  · exact h0

theorem ratioTimes100_close (v t : Nat) (ht : 0 < t) :
    (1 - 1 / 2 ^ 50) * (100 * (v : ℚ) / t) ≤ (ratioTimes100 v t).toRat ∧
    (ratioTimes100 v t).toRat ≤ (1 + 1 / 2 ^ 50) * (100 * (v : ℚ) / t) := by
  have htq : (0 : ℚ) < t := by exact_mod_cast ht
  have hvq : (0 : ℚ) ≤ v := by positivity
  obtain ⟨hV1, hV2⟩ := Dbl.ofNat_close v
  obtain ⟨hT1, hT2⟩ := Dbl.ofNat_close t
  have hTpos : 0 < (Dbl.ofNat t).m := Dbl.ofNat_m_pos t ht
  obtain ⟨hD1, hD2⟩ := Dbl.div_close (Dbl.ofNat v) (Dbl.ofNat t) hTpos
  obtain ⟨hX1, hX2⟩ := Dbl.mul_close ((Dbl.ofNat v).div (Dbl.ofNat t)) (Dbl.ofNat 100)
  rw [ofNat_hundred] at hX1 hX2
  have hV0 := Dbl.toRat_nonneg (Dbl.ofNat v)
  have hc2 : (0 : ℚ) < 1 - 1 / 2 ^ 53 := by norm_num
  have hc1 : (0 : ℚ) < 1 + 1 / 2 ^ 53 := by norm_num
  have hTlow : (0 : ℚ) < (1 - 1 / 2 ^ 53) * (t : ℚ) := mul_pos hc2 htq
  have hTq : (0 : ℚ) < (Dbl.ofNat t).toRat := by linarith
  -- the quotient of the two converted counts
  have hρ2 : (Dbl.ofNat v).toRat / (Dbl.ofNat t).toRat
      ≤ (1 + 1 / 2 ^ 53) * (v : ℚ) / ((1 - 1 / 2 ^ 53) * (t : ℚ)) :=
    div_le_div₀ (by positivity) hV2 hTlow hT1
  have hρ1 : (1 - 1 / 2 ^ 53) * (v : ℚ) / ((1 + 1 / 2 ^ 53) * (t : ℚ))
      ≤ (Dbl.ofNat v).toRat / (Dbl.ofNat t).toRat :=
    div_le_div₀ hV0 hV1 hTq hT2
  have hρ0 : (0 : ℚ) ≤ (Dbl.ofNat v).toRat / (Dbl.ofNat t).toRat := by positivity
  have hD0 : (0 : ℚ) ≤ ((Dbl.ofNat v).div (Dbl.ofNat t)).toRat := Dbl.toRat_nonneg _
  have hY : (0 : ℚ) ≤ (v : ℚ) / t := by positivity
  have e1 : (1 + 1 / 2 ^ 53) * (v : ℚ) / ((1 - 1 / 2 ^ 53) * (t : ℚ))
      = ((1 + 1 / 2 ^ 53) / (1 - 1 / 2 ^ 53)) * ((v : ℚ) / t) := by
    field_simp
  have e2 : (1 - 1 / 2 ^ 53) * (v : ℚ) / ((1 + 1 / 2 ^ 53) * (t : ℚ))
      = ((1 - 1 / 2 ^ 53) / (1 + 1 / 2 ^ 53)) * ((v : ℚ) / t) := by
    field_simp
  rw [e1] at hρ2
  rw [e2] at hρ1
  have e3 : 100 * (v : ℚ) / t = 100 * ((v : ℚ) / t) := by ring
  rw [e3]
  unfold ratioTimes100
  constructor
  · calc (1 - 1 / 2 ^ 50) * (100 * ((v : ℚ) / t))
        ≤ ((1 - 1 / 2 ^ 53) * ((1 - 1 / 2 ^ 53) * ((1 - 1 / 2 ^ 53) / (1 + 1 / 2 ^ 53)) * 100))
            * ((v : ℚ) / t) := by
          have : (1 - 1 / 2 ^ 50) * (100 : ℚ)
              ≤ (1 - 1 / 2 ^ 53) * ((1 - 1 / 2 ^ 53) * ((1 - 1 / 2 ^ 53) / (1 + 1 / 2 ^ 53)) * 100) := by
            norm_num
          nlinarith
      _ = (1 - 1 / 2 ^ 53) * (((1 - 1 / 2 ^ 53) *
            (((1 - 1 / 2 ^ 53) / (1 + 1 / 2 ^ 53)) * ((v : ℚ) / t))) * 100) := by ring
      _ ≤ (1 - 1 / 2 ^ 53) * (((1 - 1 / 2 ^ 53) *
            ((Dbl.ofNat v).toRat / (Dbl.ofNat t).toRat)) * 100) := by
          gcongr
      _ ≤ (1 - 1 / 2 ^ 53) * (((Dbl.ofNat v).div (Dbl.ofNat t)).toRat * 100) := by
          gcongr
      _ ≤ _ := hX1
  · calc (((Dbl.ofNat v).div (Dbl.ofNat t)).mul (Dbl.ofNat 100)).toRat
        ≤ (1 + 1 / 2 ^ 53) * (((Dbl.ofNat v).div (Dbl.ofNat t)).toRat * 100) := hX2
      _ ≤ (1 + 1 / 2 ^ 53) * (((1 + 1 / 2 ^ 53) *
            ((Dbl.ofNat v).toRat / (Dbl.ofNat t).toRat)) * 100) := by
          gcongr
      _ ≤ (1 + 1 / 2 ^ 53) * (((1 + 1 / 2 ^ 53) *
            (((1 + 1 / 2 ^ 53) / (1 - 1 / 2 ^ 53)) * ((v : ℚ) / t))) * 100) := by
          gcongr
      _ = ((1 + 1 / 2 ^ 53) * ((1 + 1 / 2 ^ 53) * ((1 + 1 / 2 ^ 53) / (1 - 1 / 2 ^ 53)) * 100))
            * ((v : ℚ) / t) := by ring
      _ ≤ (1 + 1 / 2 ^ 50) * (100 * ((v : ℚ) / t)) := by
          have : (1 + 1 / 2 ^ 53) * ((1 + 1 / 2 ^ 53) * ((1 + 1 / 2 ^ 53) / (1 - 1 / 2 ^ 53)) * 100)
              ≤ (1 + 1 / 2 ^ 50) * (100 : ℚ) := by
            norm_num
          nlinarith

theorem toFixed1_nearest (x : Dbl) :
    |(toFixed1 x : ℚ) / 10 - x.toRat| ≤ 1 / 20 := by
  unfold toFixed1 Dbl.toRat
  rcases Int.eq_nat_or_neg x.e with ⟨k, hk | hk⟩
  · rw [if_pos (by omega), hk]
    simp only [Int.toNat_ofNat, zpow_natCast]
    push_cast
    have : (10 : ℚ) * (x.m : ℚ) * 2 ^ k / 10 - (x.m : ℚ) * 2 ^ k = 0 := by ring
    rw [this]
    norm_num
  · rcases Nat.eq_zero_or_pos k with h0 | hkpos
    · subst h0
      rw [if_pos (by omega), hk]
      simp only [Nat.cast_zero, neg_zero, Int.toNat_zero, pow_zero, mul_one, zpow_zero]
      push_cast
      have : (10 : ℚ) * (x.m : ℚ) / 10 - (x.m : ℚ) = 0 := by ring
      rw [this]
      norm_num
    · rw [if_neg (by omega), hk]
      have hk2 : (-(-(k : Int))).toNat = k := by omega
      rw [hk2, zpow_neg, zpow_natCast]
      have hd : 0 < 2 ^ (k + 1) := by positivity
      have hdq : (0 : ℚ) < (2 : ℚ) ^ (k + 1) := by positivity
      have hsplit := Nat.div_add_mod (20 * x.m + 2 ^ k) (2 ^ (k + 1))
      have hmod := Nat.mod_lt (20 * x.m + 2 ^ k) hd
      have hsq : ((2 : ℚ) ^ (k + 1)) * ((20 * x.m + 2 ^ k) / 2 ^ (k + 1) : Nat)
          + (((20 * x.m + 2 ^ k) % 2 ^ (k + 1) : Nat) : ℚ) = 20 * (x.m : ℚ) + 2 ^ k := by
        exact_mod_cast hsplit
      have hmq : (((20 * x.m + 2 ^ k) % 2 ^ (k + 1) : Nat) : ℚ) < (2 : ℚ) ^ (k + 1) := by
        exact_mod_cast hmod
      have hm0 : (0 : ℚ) ≤ (((20 * x.m + 2 ^ k) % 2 ^ (k + 1) : Nat) : ℚ) := by positivity
      have hpk : (0 : ℚ) < (2 : ℚ) ^ k := by positivity
      have hpow : (2 : ℚ) ^ (k + 1) = 2 * 2 ^ k := by ring
      have hx : (x.m : ℚ) * ((2 : ℚ) ^ k)⁻¹ = (x.m : ℚ) / 2 ^ k := by ring
      rw [hx]
      have hrem0 : (0 : ℚ) ≤ (((20 * x.m + 2 ^ k) % 2 ^ (k + 1) : Nat) : ℚ) / (20 * 2 ^ k) := by
        positivity
      have hrem1 : (((20 * x.m + 2 ^ k) % 2 ^ (k + 1) : Nat) : ℚ) / (20 * 2 ^ k) < 1 / 10 := by
        rw [div_lt_iff₀ (by positivity)]
        rw [hpow] at hmq
        linarith
      have hval : (x.m : ℚ) / 2 ^ k
          = (((20 * x.m + 2 ^ k) / 2 ^ (k + 1) : Nat) : ℚ) / 10
            + (((20 * x.m + 2 ^ k) % 2 ^ (k + 1) : Nat) : ℚ) / (20 * 2 ^ k) - 1 / 20 := by
        rw [hpow] at hsq
        rw [div_eq_iff hpk.ne']
        calc (x.m : ℚ)
            = (2 * 2 ^ k * (((20 * x.m + 2 ^ k) / 2 ^ (k + 1) : Nat) : ℚ)
                + (((20 * x.m + 2 ^ k) % 2 ^ (k + 1) : Nat) : ℚ) - 2 ^ k) / 20 := by
              linarith
          _ = _ := by
              field_simp
              ring
      rw [abs_le, hval]
      constructor <;> linarith

theorem percentage_spec (v t : Nat) (ht : 0 < t) :
    percentage v t = (toFixed1 (ratioTimes100 v t) : ℚ) / 10 ∧
    |percentage v t - 100 * (v : ℚ) / t| ≤ 1 / 20 + 100 * (v : ℚ) / t / 2 ^ 50 := by
  have hp : percentage v t = (toFixed1 (ratioTimes100 v t) : ℚ) / 10 := by
    unfold percentage
    rw [if_pos ht]
  refine ⟨hp, ?_⟩
  rw [hp]
  obtain ⟨h1, h2⟩ := ratioTimes100_close v t ht
  obtain ⟨h3, h4⟩ := abs_le.mp (toFixed1_nearest (ratioTimes100 v t))
  rw [abs_le]
  constructor <;> linarith

theorem percentage_zero_total (v : Nat) : percentage v 0 = 0 := by
  simp [percentage]

theorem percentage_half : percentage 1 2 = 50 := by
  have h : toFixed1 (ratioTimes100 1 2) = 500 := by decide!
  rw [(percentage_spec 1 2 (by decide)).1, h]
  norm_num

theorem percentage_nearest_tenth (v t : Nat) (ht : 0 < t) (hvt : v ≤ t) (hsmall : t < 2 ^ 39) :
    |percentage v t - 100 * (v : ℚ) / t| ≤ 1 / 20 := by
  obtain ⟨hp, hclose⟩ := percentage_spec v t ht
  have htq : (0 : ℚ) < t := by exact_mod_cast ht
  have hvq : (v : ℚ) ≤ t := by exact_mod_cast hvt
  have hv0 : (0 : ℚ) ≤ v := by positivity
  have htb : (t : ℚ) < 2 ^ 39 := by exact_mod_cast hsmall
  -- twenty times the distance, scaled by the total, is an integer
  have hint : (percentage v t - 100 * (v : ℚ) / t) * (20 * t)
      = ((2 * (toFixed1 (ratioTimes100 v t) : Int) * t - 2000 * v : Int) : ℚ) := by
    rw [hp]
    push_cast
    field_simp
    ring
  have hbound : |(percentage v t - 100 * (v : ℚ) / t) * (20 * t)| < (t : ℚ) + 1 := by
    rw [abs_mul, abs_of_pos (by positivity : (0 : ℚ) < 20 * t)]
    have h1 : |percentage v t - 100 * (v : ℚ) / t| * (20 * t)
        ≤ (1 / 20 + 100 * (v : ℚ) / t / 2 ^ 50) * (20 * t) :=
      mul_le_mul_of_nonneg_right hclose (by positivity)
    have h2 : (1 / 20 + 100 * (v : ℚ) / t / 2 ^ 50) * (20 * t) = t + 2000 * v / 2 ^ 50 := by
      field_simp
      ring
    have h3 : 2000 * (v : ℚ) / 2 ^ 50 < 1 := by
      rw [div_lt_one (by positivity)]
      have : (2000 : ℚ) * 2 ^ 39 < 2 ^ 50 := by norm_num
      nlinarith
    linarith
  rw [hint] at hbound
  have hZ : |(2 * (toFixed1 (ratioTimes100 v t) : Int) * t - 2000 * v : Int)| < (t : Int) + 1 := by
    have : ((|(2 * (toFixed1 (ratioTimes100 v t) : Int) * t - 2000 * v : Int)| : Int) : ℚ)
        < ((t : Int) + 1 : Int) := by
      push_cast
      push_cast at hbound
      exact hbound
    exact_mod_cast this
  have hZ2 : |(2 * (toFixed1 (ratioTimes100 v t) : Int) * t - 2000 * v : Int)| ≤ (t : Int) := by
    omega
  have hq : |(percentage v t - 100 * (v : ℚ) / t) * (20 * t)| ≤ (t : ℚ) := by
    rw [hint]
    have : ((|(2 * (toFixed1 (ratioTimes100 v t) : Int) * t - 2000 * v : Int)| : Int) : ℚ)
        ≤ ((t : Int) : ℚ) := by exact_mod_cast hZ2
    push_cast at this ⊢
    exact this
  rw [abs_mul, abs_of_pos (by positivity : (0 : ℚ) < 20 * t)] at hq
  by_contra hcon
  push_neg at hcon
  have : (1 / 20 : ℚ) * (20 * t) < |percentage v t - 100 * (v : ℚ) / t| * (20 * t) :=
    mul_lt_mul_of_pos_right hcon (by positivity)
  have h5 : (1 / 20 : ℚ) * (20 * t) = t := by ring
  linarith

theorem percentage_tie_example : percentage 23 80 = 287 / 10 ∧ (100 * (23 : ℚ) / 80 = 2875 / 100) := by
  have h : toFixed1 (ratioTimes100 23 80) = 287 := by decide!
  rw [(percentage_spec 23 80 (by decide)).1, h]
  norm_num

/-! ## Double-precision arithmetic: rounding is monotone -/

theorem roundRatio_spec_upper (a b : Nat) (ha : 0 < a) (hb : 0 < b) :
    ∃ (num den m : Nat) (e : Int), 0 < den ∧ roundRatio a b = ⟨m, e⟩ ∧
      (num : ℚ) / den * (2 : ℚ) ^ e = (a : ℚ) / b ∧ 2 ^ 52 * den ≤ num ∧ num < 2 ^ 53 * den ∧
      |(m : ℚ) - (num : ℚ) / den| ≤ 1 / 2 := by
  obtain ⟨hla1, hla2⟩ := floorLog2_spec a ha
  obtain ⟨hlb1, hlb2⟩ := floorLog2_spec b hb
  have hne : ¬ (a = 0 ∨ b = 0) := by omega
  have hden : 0 < b * 2 ^ ((floorLog2 a : Int) - (floorLog2 b : Int) - 52).toNat := by positivity
  have hlow : 2 ^ 51 * (b * 2 ^ ((floorLog2 a : Int) - (floorLog2 b : Int) - 52).toNat)
      ≤ a * 2 ^ (-((floorLog2 a : Int) - (floorLog2 b : Int) - 52)).toNat := by
    calc 2 ^ 51 * (b * 2 ^ ((floorLog2 a : Int) - (floorLog2 b : Int) - 52).toNat)
        ≤ 2 ^ 51 * (2 ^ (floorLog2 b + 1)
            * 2 ^ ((floorLog2 a : Int) - (floorLog2 b : Int) - 52).toNat) := by
          apply Nat.mul_le_mul_left
          apply Nat.mul_le_mul_right
          exact hlb2.le
      _ = 2 ^ (51 + (floorLog2 b + 1 + ((floorLog2 a : Int) - (floorLog2 b : Int) - 52).toNat)) := by
          ring
      _ = 2 ^ (floorLog2 a + (-((floorLog2 a : Int) - (floorLog2 b : Int) - 52)).toNat) := by
          congr 1
          omega
      _ = 2 ^ floorLog2 a * 2 ^ (-((floorLog2 a : Int) - (floorLog2 b : Int) - 52)).toNat := by
          rw [pow_add]
      _ ≤ a * 2 ^ (-((floorLog2 a : Int) - (floorLog2 b : Int) - 52)).toNat := by
          apply Nat.mul_le_mul_right
          exact hla1
  have hupp : a * 2 ^ (-((floorLog2 a : Int) - (floorLog2 b : Int) - 52)).toNat
      < 2 ^ 53 * (b * 2 ^ ((floorLog2 a : Int) - (floorLog2 b : Int) - 52).toNat) := by
    calc a * 2 ^ (-((floorLog2 a : Int) - (floorLog2 b : Int) - 52)).toNat
        < 2 ^ (floorLog2 a + 1) * 2 ^ (-((floorLog2 a : Int) - (floorLog2 b : Int) - 52)).toNat := by
          apply Nat.mul_lt_mul_of_pos_right hla2
          positivity
      _ = 2 ^ (floorLog2 a + 1 + (-((floorLog2 a : Int) - (floorLog2 b : Int) - 52)).toNat) := by
          ring
      _ = 2 ^ (53 + (floorLog2 b + ((floorLog2 a : Int) - (floorLog2 b : Int) - 52).toNat)) := by
          congr 1
          omega
      _ = 2 ^ 53 * (2 ^ floorLog2 b * 2 ^ ((floorLog2 a : Int) - (floorLog2 b : Int) - 52).toNat) := by
          ring
      _ ≤ 2 ^ 53 * (b * 2 ^ ((floorLog2 a : Int) - (floorLog2 b : Int) - 52).toNat) := by
          apply Nat.mul_le_mul_left
          apply Nat.mul_le_mul_right
          exact hlb1
  have hscale : ((a * 2 ^ (-((floorLog2 a : Int) - (floorLog2 b : Int) - 52)).toNat : Nat) : ℚ)
      / ((b * 2 ^ ((floorLog2 a : Int) - (floorLog2 b : Int) - 52).toNat : Nat) : ℚ)
      * (2 : ℚ) ^ ((floorLog2 a : Int) - (floorLog2 b : Int) - 52) = (a : ℚ) / b := by
    have haq : (0 : ℚ) < a := by exact_mod_cast ha
    have hbq : (0 : ℚ) < b := by exact_mod_cast hb
    generalize ((floorLog2 a : Int) - (floorLog2 b : Int) - 52) = e0
    rcases Int.eq_nat_or_neg e0 with ⟨k, rfl | rfl⟩
    · simp only [Int.toNat_ofNat, zpow_natCast]
      have : (-(k : Int)).toNat = 0 := by omega
      rw [this]
      push_cast
      field_simp
      ring
    · simp only [neg_neg, Int.toNat_ofNat, zpow_neg, zpow_natCast]
      have : (-(k : Int)).toNat = 0 := by omega
      rw [this]
      push_cast
      field_simp
      ring
  unfold roundRatio
  rw [if_neg hne]
  simp only
  by_cases c : a * 2 ^ (-((floorLog2 a : Int) - (floorLog2 b : Int) - 52)).toNat
      < 2 ^ 52 * (b * 2 ^ ((floorLog2 a : Int) - (floorLog2 b : Int) - 52).toNat)
  · simp only [if_pos c]
    refine ⟨2 * (a * 2 ^ (-((floorLog2 a : Int) - (floorLog2 b : Int) - 52)).toNat),
      b * 2 ^ ((floorLog2 a : Int) - (floorLog2 b : Int) - 52).toNat, _,
      (floorLog2 a : Int) - (floorLog2 b : Int) - 52 - 1, hden, ?_, ?_, by omega, by omega,
      abs_round_le_half _ _ hden⟩
    · split_ifs <;> rfl
    · rw [zpow_sub_one₀ (by norm_num : (2 : ℚ) ≠ 0), ← hscale]
      push_cast
      field_simp
      ring
  · simp only [if_neg c]
    refine ⟨a * 2 ^ (-((floorLog2 a : Int) - (floorLog2 b : Int) - 52)).toNat,
      b * 2 ^ ((floorLog2 a : Int) - (floorLog2 b : Int) - 52).toNat, _,
      (floorLog2 a : Int) - (floorLog2 b : Int) - 52, hden, ?_, hscale, by omega, hupp,
      abs_round_le_half _ _ hden⟩
    split_ifs <;> rfl

theorem roundRatio_le_of_le (a b : Nat) (hb : 0 < b) (K : Nat) (j : Int) (hK : K < 2 ^ 53)
    (h : (a : ℚ) / b ≤ (K : ℚ) * (2 : ℚ) ^ j) :
    (roundRatio a b).toRat ≤ (K : ℚ) * (2 : ℚ) ^ j := by
  rcases Nat.eq_zero_or_pos a with ha | ha
  · subst ha
    have : (roundRatio 0 b).toRat = 0 := by simp [roundRatio, Dbl.toRat]
    rw [this]
    positivity
  · obtain ⟨num, den, m, e, hden, hr, hscale, hlow, -, habs⟩ := roundRatio_spec_upper a b ha hb
    rw [hr]
    simp only [Dbl.toRat]
    have hp : (0 : ℚ) < (2 : ℚ) ^ e := by positivity
    have hdq : (0 : ℚ) < den := by exact_mod_cast hden
    have hy : (2 : ℚ) ^ 52 ≤ (num : ℚ) / den := by
      rw [le_div_iff₀ hdq]
      exact_mod_cast hlow
    obtain ⟨-, h2⟩ := abs_le.mp habs
    have hKq : (K : ℚ) < 2 ^ 53 := by exact_mod_cast hK
    rw [← hscale] at h
    rcases le_or_lt e j with hej | hje
    · -- the bound is a whole multiple of the last place
      obtain ⟨d, hd⟩ : ∃ d : Nat, j = e + d := ⟨(j - e).toNat, by omega⟩
      have hpow : (2 : ℚ) ^ j = (2 : ℚ) ^ e * (2 : ℚ) ^ d := by
        rw [hd, zpow_add₀ (by norm_num : (2 : ℚ) ≠ 0), zpow_natCast]
      rw [hpow] at h ⊢
      have hyN : (num : ℚ) / den ≤ ((K * 2 ^ d : Nat) : ℚ) := by
        push_cast
        have : (num : ℚ) / den * (2 : ℚ) ^ e ≤ ((K : ℚ) * (2 : ℚ) ^ d) * (2 : ℚ) ^ e := by
          calc (num : ℚ) / den * (2 : ℚ) ^ e ≤ (K : ℚ) * ((2 : ℚ) ^ e * (2 : ℚ) ^ d) := h
            _ = ((K : ℚ) * (2 : ℚ) ^ d) * (2 : ℚ) ^ e := by ring
        exact le_of_mul_le_mul_right this hp
      have hmN : m ≤ K * 2 ^ d := by
        have : (m : ℚ) < ((K * 2 ^ d + 1 : Nat) : ℚ) := by
          push_cast
          push_cast at hyN
          linarith
        have := Nat.cast_lt.mp this
        omega
      have hmNq : (m : ℚ) ≤ (K : ℚ) * (2 : ℚ) ^ d := by exact_mod_cast hmN
      calc (m : ℚ) * (2 : ℚ) ^ e ≤ ((K : ℚ) * (2 : ℚ) ^ d) * (2 : ℚ) ^ e :=
            mul_le_mul_of_nonneg_right hmNq hp.le
        _ = (K : ℚ) * ((2 : ℚ) ^ e * (2 : ℚ) ^ d) := by ring
    · -- the bound lies below the binade of the quotient
      exfalso
      obtain ⟨d, hd⟩ : ∃ d : Nat, e = j + 1 + d := ⟨(e - j - 1).toNat, by omega⟩
      have hpow : (2 : ℚ) ^ e = (2 : ℚ) ^ j * 2 * (2 : ℚ) ^ d := by
        rw [hd, zpow_add₀ (by norm_num : (2 : ℚ) ≠ 0), zpow_add₀ (by norm_num : (2 : ℚ) ≠ 0),
          zpow_natCast, zpow_one]
      have hpj : (0 : ℚ) < (2 : ℚ) ^ j := by positivity
      have hd1 : (1 : ℚ) ≤ (2 : ℚ) ^ d := one_le_pow₀ (by norm_num)
      rw [hpow] at h
      have h3 : ((num : ℚ) / den * 2 * (2 : ℚ) ^ d) * (2 : ℚ) ^ j ≤ (K : ℚ) * (2 : ℚ) ^ j := by
        calc ((num : ℚ) / den * 2 * (2 : ℚ) ^ d) * (2 : ℚ) ^ j
            = (num : ℚ) / den * ((2 : ℚ) ^ j * 2 * (2 : ℚ) ^ d) := by ring
          _ ≤ _ := h
      have h4 := le_of_mul_le_mul_right h3 hpj
      have h5 : (2 : ℚ) ^ 52 * 2 * 1 ≤ (num : ℚ) / den * 2 * (2 : ℚ) ^ d := by
        apply mul_le_mul _ hd1 (by norm_num) (by positivity)
        linarith
      norm_num at h5
      have hK2 : (K : ℚ) < 9007199254740992 := by exact_mod_cast hK
      linarith

theorem roundRatio_mono_of_lt (a b c d : Nat) (hb : 0 < b) (hd : 0 < d)
    (h : (a : ℚ) / b < (c : ℚ) / d) :
    (roundRatio a b).toRat ≤ (roundRatio c d).toRat := by
  rcases Nat.eq_zero_or_pos a with ha | ha
  · subst ha
    have : (roundRatio 0 b).toRat = 0 := by simp [roundRatio, Dbl.toRat]
    rw [this]
    exact Dbl.toRat_nonneg _
  · have hc : 0 < c := by
      rcases Nat.eq_zero_or_pos c with hc | hc
      · subst hc
        have : (0 : ℚ) ≤ (a : ℚ) / b := by positivity
        simp at h
        linarith
      · exact hc
    obtain ⟨num, den, m, e, hden, hr, hscale, hlow, hupp, habs⟩ := roundRatio_spec_upper a b ha hb
    obtain ⟨num', den', m', e', hden', hr', hscale', hlow', hupp', habs'⟩ :=
      roundRatio_spec_upper c d hc hd
    rw [hr, hr']
    simp only [Dbl.toRat]
    rw [← hscale, ← hscale'] at h
    have hdq : (0 : ℚ) < den := by exact_mod_cast hden
    have hdq' : (0 : ℚ) < den' := by exact_mod_cast hden'
    have hy1 : (2 : ℚ) ^ 52 ≤ (num : ℚ) / den := by
      rw [le_div_iff₀ hdq]; exact_mod_cast hlow
    have hy2 : (num : ℚ) / den < (2 : ℚ) ^ 53 := by
      rw [div_lt_iff₀ hdq]; exact_mod_cast hupp
    have hy1' : (2 : ℚ) ^ 52 ≤ (num' : ℚ) / den' := by
      rw [le_div_iff₀ hdq']; exact_mod_cast hlow'
    have hy2' : (num' : ℚ) / den' < (2 : ℚ) ^ 53 := by
      rw [div_lt_iff₀ hdq']; exact_mod_cast hupp'
    obtain ⟨hm1, hm2⟩ := abs_le.mp habs
    obtain ⟨hm1', hm2'⟩ := abs_le.mp habs'
    have hp : (0 : ℚ) < (2 : ℚ) ^ e := by positivity
    have hp' : (0 : ℚ) < (2 : ℚ) ^ e' := by positivity
    -- both significands are integers between 2 ^ 52 and 2 ^ 53
    have hmle : (m : ℚ) ≤ 2 ^ 53 := by
      have : (m : ℚ) < ((2 ^ 53 + 1 : Nat) : ℚ) := by
        push_cast
        linarith
      have := Nat.cast_lt.mp this
      have : m ≤ 2 ^ 53 := by omega
      exact_mod_cast this
    have hmge' : (2 : ℚ) ^ 52 ≤ (m' : ℚ) := by
      have : ((2 ^ 52 - 1 : Nat) : ℚ) < (m' : ℚ) := by
        push_cast
        linarith
      have := Nat.cast_lt.mp this
      have : 2 ^ 52 ≤ m' := by omega
      exact_mod_cast this
    rcases lt_trichotomy e e' with hlt | heq | hgt
    · obtain ⟨k, hk⟩ : ∃ k : Nat, e' = e + 1 + k := ⟨(e' - e - 1).toNat, by omega⟩
      have hpow : (2 : ℚ) ^ e' = (2 : ℚ) ^ e * 2 * (2 : ℚ) ^ k := by
        rw [hk, zpow_add₀ (by norm_num : (2 : ℚ) ≠ 0), zpow_add₀ (by norm_num : (2 : ℚ) ≠ 0),
          zpow_natCast, zpow_one]
      have hk1 : (1 : ℚ) ≤ (2 : ℚ) ^ k := one_le_pow₀ (by norm_num)
      rw [hpow]
      calc (m : ℚ) * (2 : ℚ) ^ e ≤ (2 : ℚ) ^ 53 * (2 : ℚ) ^ e :=
            mul_le_mul_of_nonneg_right hmle hp.le
        _ = (2 : ℚ) ^ 52 * ((2 : ℚ) ^ e * 2 * 1) := by ring
        _ ≤ (m' : ℚ) * ((2 : ℚ) ^ e * 2 * (2 : ℚ) ^ k) := by
            apply mul_le_mul hmge' _ (by positivity) (by positivity)
            apply mul_le_mul_of_nonneg_left hk1 (by positivity)
    · subst heq
      have hyy : (num : ℚ) / den < (num' : ℚ) / den' := lt_of_mul_lt_mul_right h hp.le
      have hmm : m ≤ m' := by
        have : (m : ℚ) < ((m' + 1 : Nat) : ℚ) := by
          push_cast
          linarith
        have := Nat.cast_lt.mp this
        omega
      have hmmq : (m : ℚ) ≤ (m' : ℚ) := by exact_mod_cast hmm
      exact mul_le_mul_of_nonneg_right hmmq hp.le
    · exfalso
      obtain ⟨k, hk⟩ : ∃ k : Nat, e = e' + 1 + k := ⟨(e - e' - 1).toNat, by omega⟩
      have hpow : (2 : ℚ) ^ e = (2 : ℚ) ^ e' * 2 * (2 : ℚ) ^ k := by
        rw [hk, zpow_add₀ (by norm_num : (2 : ℚ) ≠ 0), zpow_add₀ (by norm_num : (2 : ℚ) ≠ 0),
          zpow_natCast, zpow_one]
      have hk1 : (1 : ℚ) ≤ (2 : ℚ) ^ k := one_le_pow₀ (by norm_num)
      rw [hpow] at h
      have h1 : (2 : ℚ) ^ 52 * ((2 : ℚ) ^ e' * 2 * 1)
          ≤ (num : ℚ) / den * ((2 : ℚ) ^ e' * 2 * (2 : ℚ) ^ k) := by
        apply mul_le_mul hy1 _ (by positivity) (by positivity)
        apply mul_le_mul_of_nonneg_left hk1 (by positivity)
      have h2 : (num' : ℚ) / den' * (2 : ℚ) ^ e' < (2 : ℚ) ^ 53 * (2 : ℚ) ^ e' :=
        mul_lt_mul_of_pos_right hy2' hp'
      have h3 : (2 : ℚ) ^ 52 * ((2 : ℚ) ^ e' * 2 * 1) = (2 : ℚ) ^ 53 * (2 : ℚ) ^ e' := by ring
      linarith

theorem Dbl.ofNat_mono (v t : Nat) (h : v ≤ t) : (Dbl.ofNat v).toRat ≤ (Dbl.ofNat t).toRat := by
  rcases Nat.eq_or_lt_of_le h with heq | hlt
  · rw [heq]
  · unfold Dbl.ofNat
    apply roundRatio_mono_of_lt v 1 t 1 Nat.one_pos Nat.one_pos
    have : (v : ℚ) < t := by exact_mod_cast hlt
    simpa using this

theorem ratioTimes100_le_hundred (v t : Nat) (ht : 0 < t) (hvt : v ≤ t) :
    (ratioTimes100 v t).toRat ≤ 100 := by
  have hmono := Dbl.ofNat_mono v t hvt
  have hTm : 0 < (Dbl.ofNat t).m := Dbl.ofNat_m_pos t ht
  have hTmq : (0 : ℚ) < (Dbl.ofNat t).m := by exact_mod_cast hTm
  have h2ne : (2 : ℚ) ≠ 0 := by norm_num
  -- the quotient of the converted counts is at most 1
  have hD : ((Dbl.ofNat v).div (Dbl.ofNat t)).toRat ≤ 1 := by
    rw [Dbl.toRat_div]
    have hq : ((Dbl.ofNat v).m : ℚ) / (Dbl.ofNat t).m
        ≤ ((1 : Nat) : ℚ) * (2 : ℚ) ^ ((Dbl.ofNat t).e - (Dbl.ofNat v).e) := by
      simp only [Dbl.toRat] at hmono
      rw [div_le_iff₀ hTmq, zpow_sub₀ h2ne]
      have hpv : (0 : ℚ) < (2 : ℚ) ^ (Dbl.ofNat v).e := by positivity
      rw [Nat.cast_one, one_mul, div_mul_eq_mul_div, le_div_iff₀ hpv]
      linarith
    have hr := roundRatio_le_of_le (Dbl.ofNat v).m (Dbl.ofNat t).m hTm 1
      ((Dbl.ofNat t).e - (Dbl.ofNat v).e) (by norm_num) hq
    have hs : (0 : ℚ) ≤ (2 : ℚ) ^ (Dbl.ofNat v).e / (2 : ℚ) ^ (Dbl.ofNat t).e := by positivity
    calc (roundRatio (Dbl.ofNat v).m (Dbl.ofNat t).m).toRat
          * ((2 : ℚ) ^ (Dbl.ofNat v).e / (2 : ℚ) ^ (Dbl.ofNat t).e)
        ≤ (((1 : Nat) : ℚ) * (2 : ℚ) ^ ((Dbl.ofNat t).e - (Dbl.ofNat v).e))
          * ((2 : ℚ) ^ (Dbl.ofNat v).e / (2 : ℚ) ^ (Dbl.ofNat t).e) :=
          mul_le_mul_of_nonneg_right hr hs
      _ = 1 := by
          rw [zpow_sub₀ h2ne]
          field_simp
  -- and so is its product with 100 at most 100
  have hH := ofNat_hundred
  unfold ratioTimes100
  rw [Dbl.toRat_mul]
  set D := (Dbl.ofNat v).div (Dbl.ofNat t) with hDdef
  set H := Dbl.ofNat 100 with hHdef
  simp only [Dbl.toRat] at hD hH
  have hpD : (0 : ℚ) < (2 : ℚ) ^ D.e := by positivity
  have hpH : (0 : ℚ) < (2 : ℚ) ^ H.e := by positivity
  have hq : ((D.m * H.m : Nat) : ℚ) / ((1 : Nat) : ℚ)
      ≤ ((100 : Nat) : ℚ) * (2 : ℚ) ^ (-D.e - H.e) := by
    rw [Nat.cast_one, div_one, sub_eq_add_neg, zpow_add₀ h2ne, zpow_neg, zpow_neg]
    push_cast
    have hHm : (H.m : ℚ) = 100 * ((2 : ℚ) ^ H.e)⁻¹ := by
      field_simp
      linarith
    have hDm : (D.m : ℚ) ≤ ((2 : ℚ) ^ D.e)⁻¹ := by
      rw [← one_div, le_div_iff₀ hpD]
      exact hD
    have hinv : (0 : ℚ) ≤ 100 * ((2 : ℚ) ^ H.e)⁻¹ := by positivity
    calc (D.m : ℚ) * (H.m : ℚ) = (D.m : ℚ) * (100 * ((2 : ℚ) ^ H.e)⁻¹) := by rw [hHm]
      _ ≤ ((2 : ℚ) ^ D.e)⁻¹ * (100 * ((2 : ℚ) ^ H.e)⁻¹) :=
          mul_le_mul_of_nonneg_right hDm hinv
      _ = 100 * (((2 : ℚ) ^ D.e)⁻¹ * ((2 : ℚ) ^ H.e)⁻¹) := by ring
  have hr := roundRatio_le_of_le (D.m * H.m) 1 Nat.one_pos 100 (-D.e - H.e) (by norm_num) hq
  have hs : (0 : ℚ) ≤ (2 : ℚ) ^ D.e * (2 : ℚ) ^ H.e := by positivity
  calc (roundRatio (D.m * H.m) 1).toRat * ((2 : ℚ) ^ D.e * (2 : ℚ) ^ H.e)
      ≤ (((100 : Nat) : ℚ) * (2 : ℚ) ^ (-D.e - H.e)) * ((2 : ℚ) ^ D.e * (2 : ℚ) ^ H.e) :=
        mul_le_mul_of_nonneg_right hr hs
    _ = 100 := by
        rw [sub_eq_add_neg, zpow_add₀ h2ne, zpow_neg, zpow_neg]
        push_cast
        field_simp

theorem percentage_le_hundred (v t : Nat) (hvt : v ≤ t) :
    0 ≤ percentage v t ∧ percentage v t ≤ 100 := by
  rcases Nat.eq_zero_or_pos t with ht | ht
  · subst ht
    rw [percentage_zero_total]
    norm_num
  · rw [(percentage_spec v t ht).1]
    refine ⟨by positivity, ?_⟩
    have hx := ratioTimes100_le_hundred v t ht hvt
    obtain ⟨-, h2⟩ := abs_le.mp (toFixed1_nearest (ratioTimes100 v t))
    have hn : toFixed1 (ratioTimes100 v t) ≤ 1000 := by
      have : (toFixed1 (ratioTimes100 v t) : ℚ) < ((1001 : Nat) : ℚ) := by
        push_cast
        linarith
      have := Nat.cast_lt.mp this
      omega
    have hnq : (toFixed1 (ratioTimes100 v t) : ℚ) ≤ 1000 := by exact_mod_cast hn
    linarith

/-! ## The results route -/

theorem lookup_map_key (keys : List ℚ) (f : ℚ → Nat) (k : ℚ) :
    (keys.map (fun x => (x, f x))).lookup k = if k ∈ keys then some (f k) else none := by
  induction keys with
  | nil => simp
  | cons a keys ih =>
    simp only [List.map_cons, List.lookup_cons, List.mem_cons]
    by_cases hka : k = a
    · subst hka
      simp
    · have : (k == a) = false := by simpa using hka
      rw [this, ih]
      simp [hka]

theorem voteCountAt_getPollResults (db : Db) (pollId : String) (i : Nat) :
    voteCountAt (getPollResults db pollId) i =
      (votesOf db pollId).countP (fun v => v.option_index == (i : ℚ)) := by
  unfold voteCountAt getPollResults
  rw [lookup_map_key]
  by_cases hmem : (i : ℚ) ∈ ((votesOf db pollId).map (fun v => v.option_index)).dedup
  · rw [if_pos hmem]
    rfl
  · rw [if_neg hmem]
    rw [List.mem_dedup, List.mem_map] at hmem
    symm
    rw [Option.getD_none, List.countP_eq_zero]
    intro v hv hidx
    exact hmem ⟨v, hv, by simpa using hidx⟩

theorem countP_le_length_votes (db : Db) (pollId : String) (i : Nat) :
    (votesOf db pollId).countP (fun v => v.option_index == (i : ℚ)) ≤ getTotalVotes db pollId :=
  List.countP_le_length _

theorem formattedResults_length (options : List String) (results : List (ℚ × Nat))
    (totalVotes : Nat) : (formattedResults options results totalVotes).length = options.length := by
  unfold formattedResults
  exact List.length_mapIdx

theorem formattedResults_getElem? (options : List String) (results : List (ℚ × Nat))
    (totalVotes : Nat) (i : Nat) (hi : i < options.length) :
    (formattedResults options results totalVotes)[i]? =
      some ⟨options[i], voteCountAt results i, percentage (voteCountAt results i) totalVotes⟩ := by
  unfold formattedResults
  rw [List.getElem?_mapIdx, List.getElem?_eq_getElem hi]
  rfl

theorem votesOf_length_eq_countP (db : Db) (pollId : String) :
    (votesOf db pollId).length = db.votes.countP (fun v => decide (v.poll_id = pollId)) := by
  unfold votesOf
  rw [List.countP_eq_length_filter]
  congr 2

theorem votesOf_countP_eq (db : Db) (pollId : String) (i : Nat) :
    (votesOf db pollId).countP (fun v => v.option_index == (i : ℚ)) =
      db.votes.countP (fun v => decide (v.poll_id = pollId ∧ v.option_index = (i : ℚ))) := by
  unfold votesOf
  rw [List.countP_filter]
  congr 1
  funext v
  by_cases h1 : v.poll_id = pollId <;> by_cases h2 : v.option_index = (i : ℚ) <;> simp [h1, h2]

theorem toFixed1_vs_half_up (v t : Nat) (ht : 0 < t) (hvt : v ≤ t) (hsmall : t < 2 ^ 39) :
    (2000 * v + t) / (2 * t) = toFixed1 (ratioTimes100 v t) ∨
    ((2000 * v + t) / (2 * t) = toFixed1 (ratioTimes100 v t) + 1 ∧
      (2000 * v + t) % (2 * t) = 0) := by
  have hnear := percentage_nearest_tenth v t ht hvt hsmall
  rw [(percentage_spec v t ht).1] at hnear
  obtain ⟨h1, h2⟩ := abs_le.mp hnear
  have htq : (0 : ℚ) < t := by exact_mod_cast ht
  have hdiv : 100 * (v : ℚ) / t * (20 * t) = 2000 * v := by
    field_simp
    ring
  have hup : 2 * toFixed1 (ratioTimes100 v t) * t ≤ 2000 * v + t := by
    have : (2 : ℚ) * (toFixed1 (ratioTimes100 v t) : ℚ) * t ≤ 2000 * v + t := by
      have := mul_le_mul_of_nonneg_right h2 (by positivity : (0 : ℚ) ≤ 20 * t)
      rw [sub_mul, hdiv] at this
      linarith
    exact_mod_cast this
  have hdown : 2000 * v ≤ 2 * toFixed1 (ratioTimes100 v t) * t + t := by
    have : (2000 : ℚ) * v ≤ 2 * (toFixed1 (ratioTimes100 v t) : ℚ) * t + t := by
      have := mul_le_mul_of_nonneg_right h1 (by positivity : (0 : ℚ) ≤ 20 * t)
      rw [sub_mul, hdiv] at this
      linarith
    exact_mod_cast this
  have hD : 0 < 2 * t := by omega
  have hle : toFixed1 (ratioTimes100 v t) ≤ (2000 * v + t) / (2 * t) := by
    rw [Nat.le_div_iff_mul_le hD]
    calc toFixed1 (ratioTimes100 v t) * (2 * t)
        = 2 * toFixed1 (ratioTimes100 v t) * t := by ring
      _ ≤ 2000 * v + t := hup
  have hge : (2000 * v + t) / (2 * t) ≤ toFixed1 (ratioTimes100 v t) + 1 := by
    apply Nat.div_le_of_le_mul
    calc 2000 * v + t ≤ 2 * toFixed1 (ratioTimes100 v t) * t + t + t := by omega
      _ = 2 * t * (toFixed1 (ratioTimes100 v t) + 1) := by ring
  rcases Nat.lt_or_ge ((2000 * v + t) / (2 * t)) (toFixed1 (ratioTimes100 v t) + 1) with hlt | hge2
  · left
    omega
  · right
    have heq : (2000 * v + t) / (2 * t) = toFixed1 (ratioTimes100 v t) + 1 := by omega
    refine ⟨heq, ?_⟩
    have hmul := Nat.div_mul_le_self (2000 * v + t) (2 * t)
    rw [heq] at hmul
    have hexact : 2000 * v + t = (toFixed1 (ratioTimes100 v t) + 1) * (2 * t) := by
      have : (toFixed1 (ratioTimes100 v t) + 1) * (2 * t)
          = 2 * toFixed1 (ratioTimes100 v t) * t + t + t := by ring
      omega
    rw [hexact]
    exact Nat.mul_mod_left _ _

theorem percentage_vs_spec (v t : Nat) (ht : 0 < t) (hvt : v ≤ t) (hsmall : t < 2 ^ 39) :
    ((2000 * v + t) % (2 * t) ≠ 0 → percentage v t = specPercentage v t) ∧
    ((2000 * v + t) % (2 * t) = 0 →
      percentage v t = specPercentage v t ∨ percentage v t = specPercentage v t - 1 / 10) := by
  have hs : specPercentage v t = (((2000 * v + t) / (2 * t) : Nat) : ℚ) / 10 := by
    unfold specPercentage
    rw [if_pos ht]
  rw [hs, (percentage_spec v t ht).1]
  rcases toFixed1_vs_half_up v t ht hvt hsmall with heq | ⟨heq, hmod⟩
  · rw [heq]
    exact ⟨fun _ => rfl, fun _ => Or.inl rfl⟩
  · rw [heq]
    refine ⟨fun hne => absurd hmod hne, fun _ => Or.inr ?_⟩
    push_cast
    ring

/-- C3, counterexample: in a reachable database (one poll with options A, B, C and
80 votes from 80 addresses, 41 for A, 1 for B, 38 for C) the results route reports
51.2 for A, although `41 / 80 * 100` is exactly 51.25 and rounds to 51.3 with halves
going up.  In the same answer B, at exactly 1.25, is reported as 1.3, so no rule
that sends every halfway value the same way (up, down, or to the even or odd
neighbour) describes the two percentages. -/
theorem results_tie_not_rounded :
    apiResults sampleParseDate (run sampleParseDate emptyDb tieCalls) (readRequest "poll-1") 9 =
      .ok ⟨⟨"poll-1", "Tie", "", ["A", "B", "C"], none⟩, none,
        [⟨"A", 41, 512 / 10⟩, ⟨"B", 1, 13 / 10⟩, ⟨"C", 38, 475 / 10⟩], 80,
        "http://localhost:3000/poll/poll-1"⟩ ∧
    100 * (41 : ℚ) / 80 = 5125 / 100 ∧ specPercentage 41 80 = 513 / 10 ∧
    (512 / 10 : ℚ) ≠ specPercentage 41 80 ∧
    100 * (1 : ℚ) / 80 = 125 / 100 ∧ specPercentage 1 80 = 13 / 10 := by
  decide!

/-- C3, amended: for an existing poll the results route answers with status 200;
`totalVotes` is the number of recorded votes whose `poll_id` is the requested
poll; the list has one entry per option in declaration order; entry `i` carries
the text of option `i` and, as `votes`, the number of recorded votes whose
`poll_id` is the requested poll and whose `option_index` is `i`.  With no vote of
the poll every entry has 0 votes and percentage 0.  With at least one vote the
percentage is the double `(votes / totalVotes) * 100` rounded to tenths as
`toFixed(1)` does; it lies within 0.05, plus a fraction `2 ^ -50` of the value, of
the exact `votes / totalVotes * 100`; and below `2 ^ 39` votes it is the exact
value rounded to one decimal place (`specPercentage`) whenever the exact value is
not halfway between two tenths, and that rounding or the tenth below it when it
is.  An entry with 1 vote out of 2 has percentage 50. -/
theorem results_one_entry_per_option
    (parseDate : String → Option Int) (db : Db) (req : Request Unit) (now : Int) (poll : Poll)
    (hpoll : getPoll db req.id = .resolved (some poll)) :
    ∃ body, apiResults parseDate db req now = .ok body ∧
      body.totalVotes = db.votes.countP (fun v => decide (v.poll_id = req.id)) ∧
      body.results.length = poll.options.length ∧
      ∀ (i : Nat) (hi : i < poll.options.length),
        ∃ entry, body.results[i]? = some entry ∧
          entry.option = poll.options[i] ∧
          entry.votes =
            db.votes.countP (fun v => decide (v.poll_id = req.id ∧ v.option_index = (i : ℚ))) ∧
          (body.totalVotes = 0 → entry.votes = 0 ∧ entry.percentage = 0) ∧
          (0 < body.totalVotes →
            entry.percentage =
              (toFixed1 (((Dbl.ofNat entry.votes).div (Dbl.ofNat body.totalVotes)).mul
                (Dbl.ofNat 100)) : ℚ) / 10 ∧
            |entry.percentage - 100 * (entry.votes : ℚ) / body.totalVotes|
              ≤ 1 / 20 + 100 * (entry.votes : ℚ) / body.totalVotes / 2 ^ 50 ∧
            (body.totalVotes < 2 ^ 39 →
              |entry.percentage - 100 * (entry.votes : ℚ) / body.totalVotes| ≤ 1 / 20 ∧
              ((2000 * entry.votes + body.totalVotes) % (2 * body.totalVotes) ≠ 0 →
                entry.percentage = specPercentage entry.votes body.totalVotes) ∧
              ((2000 * entry.votes + body.totalVotes) % (2 * body.totalVotes) = 0 →
                entry.percentage = specPercentage entry.votes body.totalVotes ∨
                entry.percentage = specPercentage entry.votes body.totalVotes - 1 / 10))) ∧
          (entry.votes = 1 → body.totalVotes = 2 → entry.percentage = 50) := by
  unfold apiResults
  rw [hpoll]
  refine ⟨_, rfl, votesOf_length_eq_countP db req.id, formattedResults_length _ _ _,
    fun i hi => ?_⟩
  have hcount : voteCountAt (getPollResults db req.id) i =
      db.votes.countP (fun v => decide (v.poll_id = req.id ∧ v.option_index = (i : ℚ))) := by
    rw [voteCountAt_getPollResults, votesOf_countP_eq]
  have hle : voteCountAt (getPollResults db req.id) i ≤ getTotalVotes db req.id := by
    rw [voteCountAt_getPollResults]
    exact countP_le_length_votes db req.id i
  refine ⟨_, formattedResults_getElem? _ _ _ i hi, rfl, hcount, ?_, ?_, ?_⟩
  · intro h0
    simp only at h0 ⊢
    rw [h0] at hle ⊢
    exact ⟨by omega, percentage_zero_total _⟩
  · intro hpos
    simp only at hpos ⊢
    obtain ⟨h1, h2⟩ := percentage_spec (voteCountAt (getPollResults db req.id) i)
      (getTotalVotes db req.id) hpos
    refine ⟨h1, h2, fun hsmall => ?_⟩
    exact ⟨percentage_nearest_tenth _ _ hpos hle hsmall,
      percentage_vs_spec _ _ hpos hle hsmall⟩
  · intro h1 h2
    simp only at h1 h2 ⊢
    rw [h1, h2]
    exact percentage_half

theorem getPoll_lunchDb2 : getPoll lunchDb2 "poll-1" = .resolved (some lunchPoll) := by
  decide

theorem getPoll_twoPollDb : getPoll twoPollDb "poll-2" = .resolved (some coloursPoll) := by
  decide

theorem results_one_entry_per_option_witness :
    ∃ body, apiResults sampleParseDate twoPollDb (readRequest "poll-2") 9 = .ok body ∧
      body.totalVotes = twoPollDb.votes.countP (fun v => decide (v.poll_id = "poll-2")) ∧
      body.results.length = coloursPoll.options.length ∧
      ∀ (i : Nat) (hi : i < coloursPoll.options.length),
        ∃ entry, body.results[i]? = some entry ∧
          entry.option = coloursPoll.options[i] ∧
          entry.votes =
            twoPollDb.votes.countP
              (fun v => decide (v.poll_id = "poll-2" ∧ v.option_index = (i : ℚ))) ∧
          (body.totalVotes = 0 → entry.votes = 0 ∧ entry.percentage = 0) ∧
          (0 < body.totalVotes →
            entry.percentage =
              (toFixed1 (((Dbl.ofNat entry.votes).div (Dbl.ofNat body.totalVotes)).mul
                (Dbl.ofNat 100)) : ℚ) / 10 ∧
            |entry.percentage - 100 * (entry.votes : ℚ) / body.totalVotes|
              ≤ 1 / 20 + 100 * (entry.votes : ℚ) / body.totalVotes / 2 ^ 50 ∧
            (body.totalVotes < 2 ^ 39 →
              |entry.percentage - 100 * (entry.votes : ℚ) / body.totalVotes| ≤ 1 / 20 ∧
              ((2000 * entry.votes + body.totalVotes) % (2 * body.totalVotes) ≠ 0 →
                entry.percentage = specPercentage entry.votes body.totalVotes) ∧
              ((2000 * entry.votes + body.totalVotes) % (2 * body.totalVotes) = 0 →
                entry.percentage = specPercentage entry.votes body.totalVotes ∨
                entry.percentage = specPercentage entry.votes body.totalVotes - 1 / 10))) ∧
          (entry.votes = 1 → body.totalVotes = 2 → entry.percentage = 50) :=
  results_one_entry_per_option sampleParseDate twoPollDb (readRequest "poll-2") 9 coloursPoll
    getPoll_twoPollDb

/-- Two polls side by side: the results of each poll count only the votes whose
`poll_id` is that poll. -/
theorem two_polls_scenario :
    apiResults sampleParseDate twoPollDb (readRequest "poll-1") 9 =
      .ok ⟨lunchPoll, none, [⟨"Pizza", 1, 50⟩, ⟨"Sushi", 1, 50⟩], 2,
        "http://localhost:3000/poll/poll-1"⟩ ∧
    apiResults sampleParseDate twoPollDb (readRequest "poll-2") 9 =
      .ok ⟨coloursPoll, none, [⟨"Red", 2, 667 / 10⟩, ⟨"Blue", 0, 0⟩, ⟨"Green", 1, 333 / 10⟩], 3,
        "http://localhost:3000/poll/poll-2"⟩ := by
  decide!

/-- The scenario of the specification: a lunch poll, one vote for each of its two
options from two addresses, then the results. -/
theorem lunch_scenario :
    run sampleParseDate emptyDb
        [.createPoll (createRequest (some "Lunch") (some ["Pizza", "Sushi"]) none) "poll-1" 0,
          .submitVote (voteRequest "poll-1" (some "10.0.0.1") (some 0)) 1,
          .submitVote (voteRequest "poll-1" (some "10.0.0.2") (some 1)) 2] = lunchDb2 ∧
    apiResults sampleParseDate lunchDb2 (readRequest "poll-1") 9 =
      .ok ⟨lunchPoll, none, [⟨"Pizza", 1, 50⟩, ⟨"Sushi", 1, 50⟩], 2,
        "http://localhost:3000/poll/poll-1"⟩ := by
  decide!

/-! ## Tallies and the total -/

theorem getPoll_congr (db db1 : Db) (h : db1.polls = db.polls) (pollId : String) :
    getPoll db1 pollId = getPoll db pollId := by
  unfold getPoll
  rw [h]

theorem getPoll_resolved_inv (db : Db) (pollId : String) (poll : Poll)
    (h : getPoll db pollId = .resolved (some poll)) :
    ∃ row, db.polls.find? (fun r => r.id == pollId) = some row ∧
      jsonParse row.options = some poll.options := by
  unfold getPoll at h
  cases hf : db.polls.find? (fun r => r.id == pollId) with
  | none => simp [hf] at h
  | some row =>
    simp only [hf] at h
    cases hp : jsonParse row.options with
    | none => simp [hp] at h
    | some options =>
      simp only [hp, Outcome.resolved.injEq, Option.some.injEq] at h
      exact ⟨row, rfl, by rw [← h]; exact hp⟩

theorem step_getPoll (parseDate : String → Option Int) (db : Db) (call : Call)
    (pollId : String) (poll : Poll) (h : getPoll db pollId = .resolved (some poll)) :
    getPoll (step parseDate db call) pollId = .resolved (some poll) := by
  obtain ⟨row, hfind, hparse⟩ := getPoll_resolved_inv db pollId poll h
  have hfind1 := step_find_poll parseDate db call pollId row hfind
  have h1 := getPoll_of_find (step parseDate db call) pollId row poll.options hfind1 hparse
  have h0 := getPoll_of_find db pollId row poll.options hfind hparse
  rw [h1, ← h0, h]

theorem apiVote_db_range (parseDate : String → Option Int) (db : Db) (req : Request VoteBody)
    (now : Int) :
    (apiVote parseDate db req now).1 = db ∨
    ∃ (q : ℚ) (poll : Poll), getPoll db req.id = .resolved (some poll) ∧
      0 ≤ q ∧ q < (poll.options.length : ℚ) ∧
      (apiVote parseDate db req now).1 =
        ⟨db.polls, db.votes ++ [⟨db.voteSeq + 1, req.id, q, getClientIP req⟩],
          db.voteSeq + 1⟩ := by
  unfold apiVote
  cases req.body.optionIndex with
  | none => exact Or.inl rfl
  | some q =>
    simp only
    split_ifs with c1
    · exact Or.inl rfl
    · cases hg : getPoll db req.id with
      | thrown => exact Or.inl rfl
      | rejected message => exact Or.inl rfl
      | resolved found =>
        cases found with
        | none => exact Or.inl rfl
        | some poll =>
          simp only
          split_ifs with c2 c3
          · exact Or.inl rfl
          · exact Or.inl rfl
          · unfold submitVote
            by_cases c4 : db.votes.any
                (fun v => v.poll_id == req.id && sqlEq v.voter_ip (getClientIP req)) = true
            · rw [if_pos c4]
              simp
            · rw [if_neg c4]
              exact Or.inr ⟨q, poll, rfl, not_lt.mp c1, not_le.mp c3, rfl⟩

theorem step_votesInRange (parseDate : String → Option Int) (db : Db) (call : Call)
    (h : VotesInRange db) : VotesInRange (step parseDate db call) := by
  have hkeep : ∀ v ∈ db.votes, ∃ poll,
      getPoll (step parseDate db call) v.poll_id = .resolved (some poll) ∧
        0 ≤ v.option_index ∧ v.option_index < (poll.options.length : ℚ) := by
    intro v hv
    obtain ⟨poll, hp, h0, h1⟩ := h v hv
    exact ⟨poll, step_getPoll parseDate db call v.poll_id poll hp, h0, h1⟩
  cases call with
  | createPoll req newId now =>
    intro v hv
    apply hkeep v
    rcases apiCreatePoll_db parseDate db req newId now with hsame | ⟨_, newRow, _, hnew⟩
    · simpa only [step, hsame] using hv
    · simpa only [step, hnew] using hv
  | submitVote req now =>
    rcases apiVote_db_range parseDate db req now with hsame | ⟨q, poll, hp, h0, h1, hnew⟩
    · intro v hv
      apply hkeep v
      simpa only [step, hsame] using hv
    · intro v hv
      have hv' : v ∈ db.votes ++ [⟨db.voteSeq + 1, req.id, q, getClientIP req⟩] := by
        simpa only [step, hnew] using hv
      rcases List.mem_append.mp hv' with hold | hnewv
      · exact hkeep v hold
      · rw [List.mem_singleton] at hnewv
        subst hnewv
        exact ⟨poll, step_getPoll parseDate db (.submitVote req now) req.id poll hp, h0, h1⟩

/-- In every database reached from the empty one by create and vote calls, every
recorded vote belongs to a stored poll and its index is not negative and below
the number of options of that poll. -/
theorem run_votesInRange (parseDate : String → Option Int) (calls : List Call) :
    ∀ db : Db, VotesInRange db → VotesInRange (run parseDate db calls) := by
  induction calls with
  | nil => intro db h; exact h
  | cons call calls ih =>
    intro db h
    exact ih (step parseDate db call) (step_votesInRange parseDate db call h)

theorem votesInRange_emptyDb : VotesInRange emptyDb := by
  intro v hv
  simp [emptyDb] at hv

theorem mapIdx_votes_eq_range (options : List String) (results : List (ℚ × Nat))
    (totalVotes : Nat) :
    (formattedResults options results totalVotes).map (fun entry => entry.votes) =
      (List.range options.length).map (fun i => voteCountAt results i) := by
  apply List.ext_getElem
  · simp [formattedResults]
  · intro i h1 h2
    simp [formattedResults]

theorem sum_indicator_range (n k : Nat) (hk : k < n) :
    ((List.range n).map (fun i : Nat => if ((k : ℚ) == (i : ℚ)) = true then 1 else 0)).sum = 1 := by
  rw [← List.sum_toFinset _ (List.nodup_range n)]
  have : ∀ i : Nat, (if ((k : ℚ) == (i : ℚ)) = true then 1 else 0) = if k = i then 1 else 0 := by
    intro i
    by_cases hki : k = i
    · simp [hki]
    · have : ¬ ((k : ℚ) = (i : ℚ)) := by exact_mod_cast hki
      simp [hki, this]
  simp only [this]
  rw [Finset.sum_ite_eq]
  simp [hk]

theorem sum_countP_range (n : Nat) (votes : List VoteRow)
    (h : ∀ v ∈ votes, ∃ k : Nat, k < n ∧ v.option_index = (k : ℚ)) :
    ((List.range n).map
        (fun i : Nat => votes.countP (fun v => v.option_index == (i : ℚ)))).sum = votes.length := by
  induction votes with
  | nil => simp
  | cons v votes ih =>
    obtain ⟨k, hk, hidx⟩ := h v (List.mem_cons_self v votes)
    have ih1 := ih (fun w hw => h w (List.mem_cons_of_mem v hw))
    have hsplit : (fun i : Nat => (v :: votes).countP (fun w => w.option_index == (i : ℚ)))
        = fun i : Nat => votes.countP (fun w => w.option_index == (i : ℚ))
            + (if ((k : ℚ) == (i : ℚ)) = true then 1 else 0) := by
      funext i
      rw [List.countP_cons, hidx]
    rw [hsplit, List.sum_map_add, ih1, sum_indicator_range n k hk, List.length_cons]

/-- In a database whose votes are in range (every database reached from the empty
one is), if every recorded vote of an existing poll carries a whole-number index,
then the `votes` fields of the results add up to `totalVotes`. -/
theorem results_sum_eq_total_of_whole_indices
    (parseDate : String → Option Int) (db : Db) (req : Request Unit) (now : Int) (poll : Poll)
    (hrange : VotesInRange db)
    (hpoll : getPoll db req.id = .resolved (some poll))
    (hwhole : ∀ v ∈ db.votes, v.poll_id = req.id → ∃ k : Nat, v.option_index = (k : ℚ)) :
    ∃ body, apiResults parseDate db req now = .ok body ∧
      sumVotes body.results = body.totalVotes := by
  unfold apiResults
  rw [hpoll]
  refine ⟨_, rfl, ?_⟩
  simp only [sumVotes]
  rw [mapIdx_votes_eq_range]
  have hfun : (fun i : Nat => voteCountAt (getPollResults db req.id) i)
      = fun i : Nat => (votesOf db req.id).countP (fun v => v.option_index == ((i : Nat) : ℚ)) := by
    funext i
    exact voteCountAt_getPollResults db req.id i
  rw [hfun]
  unfold getTotalVotes
  apply sum_countP_range
  intro v hv
  have hmem := List.mem_filter.mp hv
  have hid : v.poll_id = req.id := by simpa using hmem.2
  obtain ⟨k, hk⟩ := hwhole v hmem.1 hid
  refine ⟨k, ?_, hk⟩
  obtain ⟨poll1, hp1, -, hlt⟩ := hrange v hmem.1
  rw [hid, hpoll] at hp1
  simp only [Outcome.resolved.injEq, Option.some.injEq] at hp1
  rw [← hp1, hk] at hlt
  exact_mod_cast hlt

/-- For an existing poll, in any database, every percentage of the results lies
between 0 and 100. -/
theorem results_percentages_in_range
    (parseDate : String → Option Int) (db : Db) (req : Request Unit) (now : Int) (poll : Poll)
    (hpoll : getPoll db req.id = .resolved (some poll)) :
    ∃ body, apiResults parseDate db req now = .ok body ∧
      ∀ entry ∈ body.results, 0 ≤ entry.percentage ∧ entry.percentage ≤ 100 := by
  unfold apiResults
  rw [hpoll]
  refine ⟨_, rfl, ?_⟩
  intro entry hentry
  simp only at hentry
  obtain ⟨i, hi, hget⟩ := List.getElem_of_mem hentry
  have hi' : i < poll.options.length := by
    rw [formattedResults_length] at hi
    exact hi
  have hsome := formattedResults_getElem? poll.options (getPollResults db req.id)
    (getTotalVotes db req.id) i hi'
  rw [List.getElem?_eq_getElem hi, hget] at hsome
  simp only [Option.some.injEq] at hsome
  rw [hsome]
  simp only
  apply percentage_le_hundred
  rw [voteCountAt_getPollResults]
  exact countP_le_length_votes db req.id i

/-- C11: the code at the failing input.  After one create call, a vote request
with `optionIndex` 0.5 passes both range checks and is recorded; the results of
the poll then report `totalVotes` 1 while the `votes` fields of all entries add up
to 0: the accepted vote is counted in the total and in no option's tally. -/
theorem fractional_index_vote_in_no_tally :
    run sampleParseDate emptyDb
        [.createPoll (createRequest (some "Lunch") (some ["Pizza", "Sushi"]) none) "poll-1" 0,
          .submitVote (voteRequest "poll-1" (some "10.0.0.1") (some (1 / 2))) 1] = halfVoteDb ∧
    apiResults sampleParseDate halfVoteDb (readRequest "poll-1") 9 =
      .ok ⟨lunchPoll, none, [⟨"Pizza", 0, 0⟩, ⟨"Sushi", 0, 0⟩], 1,
        "http://localhost:3000/poll/poll-1"⟩ ∧
    sumVotes [⟨"Pizza", 0, 0⟩, ⟨"Sushi", 0, 0⟩] = 0 := by
  decide!

end VotingApp
